import Mathlib

/-!
Verification development for the EcoWebApp repository.

The development shallowly embeds the station-import pipeline of
`src/database/import_data.py` (field normalization, upsert merge of the two
open-data feeds) and the clustering entry point `simple_kmeans` of
`src/backend/main.py`.  The dynamically typed values of Python are modelled by the
inductive type `PyVal`; Python floats are modelled by exact rationals (`PyNum`
in feed values, `ℚ` in the clustering code; exact for the decimal literals
occurring in the feeds — floating-point rounding plays no role in any
property below); database timestamps (`NOW()`) are modelled by an abstract
`ℕ`-valued clock passed to each run.  A database write that raises is modelled
by `Option`/`none`; a `with engine.begin()` block that ends in `none` rolls the
state back to its value at block entry.
-/

namespace Eco

/-- An exact decimal/rational number standing in for a Python float.  The
representation is an unnormalized fraction so that all arithmetic on concrete
inputs reduces inside the kernel (the normalizing operations of `ℚ` do not); its
mathematical value is recovered by `PyNum.toRat`.  Every number built by
the import pipeline has a positive power-of-ten denominator. -/
structure PyNum where
  num : ℤ
  den : ℕ
deriving DecidableEq

/-- Mathematical value of a `PyNum`. -/
def PyNum.toRat (a : PyNum) : ℚ := (a.num : ℚ) / (a.den : ℚ)

/-- A Python value as it appears in the feed JSON: `None`, a number, a string,
a list, or a dict (association list of string keys). -/
inductive PyVal where
  | vnone : PyVal
  | vnum : PyNum → PyVal
  | vstr : String → PyVal
  | vlist : List PyVal → PyVal
  | vdict : List (String × PyVal) → PyVal

mutual

/-- Decidable equality on `PyVal` (the derive handler does not support the
nested occurrences under `List`). -/
def PyVal.decEq : (a b : PyVal) → Decidable (a = b)
  | .vnone, .vnone => .isTrue rfl
  | .vnone, .vnum _ => .isFalse (by intro h; exact PyVal.noConfusion h)
  | .vnone, .vstr _ => .isFalse (by intro h; exact PyVal.noConfusion h)
  | .vnone, .vlist _ => .isFalse (by intro h; exact PyVal.noConfusion h)
  | .vnone, .vdict _ => .isFalse (by intro h; exact PyVal.noConfusion h)
  | .vnum _, .vnone => .isFalse (by intro h; exact PyVal.noConfusion h)
  | .vnum a, .vnum b =>
      if h : a = b then .isTrue (by rw [h])
      else .isFalse (by intro hh; injection hh; contradiction)
  | .vnum _, .vstr _ => .isFalse (by intro h; exact PyVal.noConfusion h)
  | .vnum _, .vlist _ => .isFalse (by intro h; exact PyVal.noConfusion h)
  | .vnum _, .vdict _ => .isFalse (by intro h; exact PyVal.noConfusion h)
  | .vstr _, .vnone => .isFalse (by intro h; exact PyVal.noConfusion h)
  | .vstr _, .vnum _ => .isFalse (by intro h; exact PyVal.noConfusion h)
  | .vstr a, .vstr b =>
      if h : a = b then .isTrue (by rw [h])
      else .isFalse (by intro hh; injection hh; contradiction)
  | .vstr _, .vlist _ => .isFalse (by intro h; exact PyVal.noConfusion h)
  | .vstr _, .vdict _ => .isFalse (by intro h; exact PyVal.noConfusion h)
  | .vlist _, .vnone => .isFalse (by intro h; exact PyVal.noConfusion h)
  | .vlist _, .vnum _ => .isFalse (by intro h; exact PyVal.noConfusion h)
  | .vlist _, .vstr _ => .isFalse (by intro h; exact PyVal.noConfusion h)
  | .vlist xs, .vlist ys =>
      match PyVal.decEqList xs ys with
      | .isTrue h => .isTrue (by rw [h])
      | .isFalse h => .isFalse (by intro hh; injection hh; contradiction)
  | .vlist _, .vdict _ => .isFalse (by intro h; exact PyVal.noConfusion h)
  | .vdict _, .vnone => .isFalse (by intro h; exact PyVal.noConfusion h)
  | .vdict _, .vnum _ => .isFalse (by intro h; exact PyVal.noConfusion h)
  | .vdict _, .vstr _ => .isFalse (by intro h; exact PyVal.noConfusion h)
  | .vdict _, .vlist _ => .isFalse (by intro h; exact PyVal.noConfusion h)
  | .vdict xs, .vdict ys =>
      match PyVal.decEqEntries xs ys with
      | .isTrue h => .isTrue (by rw [h])
      | .isFalse h => .isFalse (by intro hh; injection hh; contradiction)

/-- Decidable equality on lists of `PyVal`. -/
def PyVal.decEqList : (a b : List PyVal) → Decidable (a = b)
  | [], [] => .isTrue rfl
  | [], _ :: _ => .isFalse (by intro h; exact List.noConfusion h)
  | _ :: _, [] => .isFalse (by intro h; exact List.noConfusion h)
  | x :: xs, y :: ys =>
      match PyVal.decEq x y, PyVal.decEqList xs ys with
      | .isTrue h1, .isTrue h2 => .isTrue (by rw [h1, h2])
      | .isFalse h1, _ => .isFalse (by intro h; injection h; contradiction)
      | _, .isFalse h2 => .isFalse (by intro h; injection h; contradiction)

/-- Decidable equality on dict entry lists. -/
def PyVal.decEqEntries : (a b : List (String × PyVal)) → Decidable (a = b)
  | [], [] => .isTrue rfl
  | [], _ :: _ => .isFalse (by intro h; exact List.noConfusion h)
  | _ :: _, [] => .isFalse (by intro h; exact List.noConfusion h)
  | (k1, v1) :: xs, (k2, v2) :: ys =>
      if hk : k1 = k2 then
        match PyVal.decEq v1 v2, PyVal.decEqEntries xs ys with
        | .isTrue hv, .isTrue ht => .isTrue (by rw [hk, hv, ht])
        | .isFalse hv, _ =>
            .isFalse (by intro h; injection h with h1 h2; injection h1; contradiction)
        | _, .isFalse ht => .isFalse (by intro h; injection h; contradiction)
      else .isFalse (by intro h; injection h with h1 h2; injection h1; contradiction)

end

instance : DecidableEq PyVal := PyVal.decEq

/-- Python truthiness (`bool(value)`) for the shapes of `PyVal`. -/
def PyVal.truthy : PyVal → Bool
  | .vnone => false
  | .vnum q => q.num ≠ 0
  | .vstr s => s ≠ ""
  | .vlist xs => !xs.isEmpty
  | .vdict es => !es.isEmpty

/-- `dict.get(key)` : first binding of `key`, or Python `None`. -/
def dictGet (es : List (String × PyVal)) (key : String) : PyVal :=
  match List.lookup key es with
  | some v => v
  | none => .vnone

/-- Numeric value of a digit character. -/
def digitVal (c : Char) : ℕ := c.toNat - 48

/-- Value of a digit string read in base 10. -/
def digitsToNat (cs : List Char) : ℕ :=
  cs.foldl (fun a c => a * 10 + digitVal c) 0

/-- Absolute value of a numeric token (`digits` or `digits.digits`),
mirroring `float()` on the strings matched by the number regex of the import. -/
def pyFloatAbs (cs : List Char) : PyNum :=
  let ip := cs.takeWhile Char.isDigit
  match cs.dropWhile Char.isDigit with
  | '.' :: frac =>
      ⟨(digitsToNat ip : ℤ) * 10 ^ frac.length + (digitsToNat frac : ℤ), 10 ^ frac.length⟩
  | _ => ⟨(digitsToNat ip : ℤ), 1⟩

/-- `float(token)` for a token matched by the regex `[-+]?\d*\.\d+|\d+`. -/
def pyFloat (cs : List Char) : PyNum :=
  match cs with
  | '-' :: rest => ⟨-(pyFloatAbs rest).num, (pyFloatAbs rest).den⟩
  | '+' :: rest => pyFloatAbs rest
  | _ => pyFloatAbs cs

/-- Match the first regex alternative `[-+]?\d*\.\d+` at the head of the
input; returns the matched token and the remaining characters.  (Backtracking
never changes the outcome for this alternative: giving digits back from `\d*`
can only place a digit where the literal dot is required.) -/
def matchFloatTok (cs : List Char) : Option (List Char × List Char) :=
  let (sign, cs1) :=
    match cs with
    | c :: rest => if c = '-' ∨ c = '+' then ([c], rest) else (([] : List Char), cs)
    | [] => (([] : List Char), ([] : List Char))
  let ip := cs1.takeWhile Char.isDigit
  match cs1.dropWhile Char.isDigit with
  | '.' :: cs3 =>
      let fp := cs3.takeWhile Char.isDigit
      if fp.isEmpty then none
      else some (sign ++ ip ++ '.' :: fp, cs3.dropWhile Char.isDigit)
  | _ => none

/-- Match the second regex alternative `\d+` at the head of the input. -/
def matchIntTok (cs : List Char) : Option (List Char × List Char) :=
  let ip := cs.takeWhile Char.isDigit
  if ip.isEmpty then none else some (ip, cs.dropWhile Char.isDigit)

/-- Ordered alternation of the two alternatives, as Python `re` tries them. -/
def matchNumTok (cs : List Char) : Option (List Char × List Char) :=
  match matchFloatTok cs with
  | some r => some r
  | none => matchIntTok cs

/-- Worker for `findNums`; the fuel bounds the number of scan positions. -/
def findNumsGo : ℕ → List Char → List (List Char)
  | 0, _ => []
  | _ + 1, [] => []
  | fuel + 1, c :: rest =>
      match matchNumTok (c :: rest) with
      | some (tok, remaining) => tok :: findNumsGo fuel remaining
      | none => findNumsGo fuel rest

/-- `re.findall(r"[-+]?\d*\.\d+|\d+", s)`: scan left to right, at each
position try the alternatives in order, on a match continue after it,
otherwise advance one character. -/
def findNums (cs : List Char) : List (List Char) := findNumsGo cs.length cs

/-- `extract_coordinates` from `src/database/import_data.py` (lines 40-52):
falsy input yields `(None, None)`; a dict with a `coordinates` list of length
≥ 2 yields `(coords[1], coords[0])` as stored (no numeric check); a string is
scanned for numeric substrings and, given at least two, the first two are
converted by `float` and returned as `(lat, lon)`; anything else yields
`(None, None)`. -/
def extract_coordinates (value : PyVal) : PyVal × PyVal :=
  if value.truthy = false then (.vnone, .vnone)
  else
    match value with
    | .vdict es =>
        match List.lookup "coordinates" es with
        | some (.vlist coords) =>
            if 2 ≤ coords.length then (coords.getD 1 .vnone, coords.getD 0 .vnone)
            else (.vnone, .vnone)
        | some _ => (.vnone, .vnone)
        | none => (.vnone, .vnone)
    | .vstr s =>
        let nums := findNums s.data
        if 2 ≤ nums.length then
          (.vnum (pyFloat (nums.getD 1 [])), .vnum (pyFloat (nums.getD 0 [])))
        else (.vnone, .vnone)
    | _ => (.vnone, .vnone)

/-- A calendar date, as produced by `datetime.date`. -/
structure SimpleDate where
  year : ℕ
  month : ℕ
  day : ℕ
deriving DecidableEq

/-- Gregorian leap-year rule used by `datetime.date`. -/
def isLeap (y : ℕ) : Bool := y % 4 = 0 && (y % 100 ≠ 0 || y % 400 = 0)

/-- Length of a month. -/
def daysInMonth (y m : ℕ) : ℕ :=
  if m = 2 then (if isLeap y then 29 else 28)
  else if m = 4 ∨ m = 6 ∨ m = 9 ∨ m = 11 then 30
  else 31

/-- `datetime.date(y, m, d)` succeeding iff its argument checks pass (the
month and day lower bounds are already enforced by the strptime regex). -/
def mkDate (y m d : ℕ) : Option SimpleDate :=
  if 1 ≤ y ∧ y ≤ 9999 ∧ d ≤ daysInMonth y m then some ⟨y, m, d⟩ else none

/-- Field of one or two digits whose two-digit alternatives cover the values
`1..hi`, exactly as the CPython strptime regexes for `%d`
(`3[01]|[12]\d|0[1-9]|[1-9]`, `hi = 31`) and `%m` (`1[0-2]|0[1-9]|[1-9]`,
`hi = 12`) behave with ordered alternation. -/
def parseTwoOrOne (hi : ℕ) : List Char → Option (ℕ × List Char)
  | c1 :: c2 :: rest =>
      if c1.isDigit ∧ c2.isDigit ∧ 1 ≤ 10 * digitVal c1 + digitVal c2 ∧
          10 * digitVal c1 + digitVal c2 ≤ hi then
        some (10 * digitVal c1 + digitVal c2, rest)
      else if '1' ≤ c1 ∧ c1 ≤ '9' then some (digitVal c1, c2 :: rest)
      else none
  | [c1] => if '1' ≤ c1 ∧ c1 ≤ '9' then some (digitVal c1, []) else none
  | [] => none

/-- `%Y`: exactly four digits. -/
def parse4Digits : List Char → Option (ℕ × List Char)
  | a :: b :: c :: d :: rest =>
      if a.isDigit ∧ b.isDigit ∧ c.isDigit ∧ d.isDigit then
        some (1000 * digitVal a + 100 * digitVal b + 10 * digitVal c + digitVal d, rest)
      else none
  | _ => none

/-- `datetime.strptime(s, "%d.%m.%Y").date()` as an `Option`: the strptime
regex must consume the whole string, then the date constructor must accept. -/
def parseDMY (cs : List Char) : Option SimpleDate :=
  match parseTwoOrOne 31 cs with
  | none => none
  | some (d, r1) =>
      match r1 with
      | '.' :: r2 =>
          match parseTwoOrOne 12 r2 with
          | none => none
          | some (m, r3) =>
              match r3 with
              | '.' :: r4 =>
                  match parse4Digits r4 with
                  | none => none
                  | some (y, r5) => if r5.isEmpty then mkDate y m d else none
              | _ => none
      | _ => none

/-- `datetime.strptime(s, "%Y-%m-%d").date()` as an `Option`. -/
def parseYMD (cs : List Char) : Option SimpleDate :=
  match parse4Digits cs with
  | none => none
  | some (y, r1) =>
      match r1 with
      | '-' :: r2 =>
          match parseTwoOrOne 12 r2 with
          | none => none
          | some (m, r3) =>
              match r3 with
              | '-' :: r4 =>
                  match parseTwoOrOne 31 r4 with
                  | none => none
                  | some (d, r5) => if r5.isEmpty then mkDate y m d else none
              | _ => none
      | _ => none

/-- `safe_parse_date` from `src/database/import_data.py` (lines 30-38): falsy
input returns `None`; otherwise each format is tried in order with every
exception (including the `TypeError` on non-string truthy input) swallowed. -/
def safe_parse_date (v : PyVal) : Option SimpleDate :=
  if v.truthy = false then none
  else
    match v with
    | .vstr s =>
        match parseDMY s.data with
        | some d => some d
        | none => parseYMD s.data
    | _ => none

/-- The parameter dict built for one record in `import_data`
(`src/database/import_data.py`, lines 144-154).  `eco_status` is the feed
flag; `test_date` passed through `safe_parse_date`; the remaining fields are
taken from the cells verbatim (missing keys become Python `None`). -/
structure StationParams where
  name : PyVal
  admarea : PyVal
  district : PyVal
  address : PyVal
  owner : PyVal
  test_date : Option SimpleDate
  eco_status : Bool
  latitude : PyVal
  longitude : PyVal
deriving DecidableEq

/-- A persisted row of the `stations` table, restricted to the columns
the import touches.  `created_at`/`updated_at` hold the abstract clock value of
the `NOW()` that last wrote them. -/
structure Station where
  id : ℕ
  name : PyVal
  admarea : PyVal
  district : PyVal
  address : PyVal
  owner : PyVal
  test_date : Option SimpleDate
  eco_status : Bool
  latitude : PyVal
  longitude : PyVal
  created_at : ℕ
  updated_at : ℕ
deriving DecidableEq

/-- The stations table plus the sequence generator backing the surrogate id. -/
structure DBState where
  rows : List Station
  nextId : ℕ
deriving DecidableEq

/-- Outcome of the per-record inspection at the top of the import loop
(`import_data`, lines 134-154): the record raises (malformed container),
is silently skipped (missing name/address), or yields a parameter dict. -/
inductive NormResult where
  | fail : NormResult
  | skip : NormResult
  | ok : StationParams → NormResult
deriving DecidableEq

/-- Normalization of one raw feed record, from `import_data` lines 134-154.
A non-dict item (or a dict whose `Cells` value is truthy but not a dict)
makes `item.get`/`cells.get` raise, aborting the batch; a record lacking a
truthy name or address is skipped with `continue`. -/
def normalizeRecord (eco : Bool) (item : PyVal) : NormResult :=
  match item with
  | .vdict es =>
      match List.lookup "Cells" es with
      | some (.vdict cs) => normalizeCells eco cs
      | none => normalizeCells eco []
      | some _ => .fail
  | _ => .fail
where
  /-- Body of the loop once `cells` is a dict. -/
  normalizeCells (eco : Bool) (cs : List (String × PyVal)) : NormResult :=
    let name := dictGet cs "FullName"
    let address := dictGet cs "Address"
    if name.truthy = false ∨ address.truthy = false then .skip
    else
      let ll := extract_coordinates (dictGet cs "geoData")
      .ok { name := name
            admarea := dictGet cs "AdmArea"
            district := dictGet cs "District"
            address := address
            owner := dictGet cs "Owner"
            test_date := safe_parse_date (dictGet cs "TestDate")
            eco_status := eco
            latitude := ll.1
            longitude := ll.2 }

/-- A value the store accepts for the double-precision `latitude`/`longitude`
columns: SQL `NULL` or a number.  Any other value makes the `INSERT` raise. -/
def validCoord : PyVal → Bool
  | .vnone => true
  | .vnum _ => true
  | _ => false

/-- Does a row match the `(name, address)` conflict key of the upsert? -/
def keyMatches (p : StationParams) (s : Station) : Bool :=
  s.name = p.name && s.address = p.address

/-- The `DO UPDATE` arm of `upsert_sql` (`import_data`, lines 109-118):
overwrite `admarea`, `district`, `owner`, `test_date`, `eco_status`,
`latitude`, `longitude` and `updated_at`; everything else stays. -/
def applyUpdate (now : ℕ) (p : StationParams) (s : Station) : Station :=
  { s with admarea := p.admarea, district := p.district, owner := p.owner,
           test_date := p.test_date, eco_status := p.eco_status,
           latitude := p.latitude, longitude := p.longitude, updated_at := now }

/-- The row built by the `INSERT` arm of `upsert_sql` (lines 105-108). -/
def freshRow (now : ℕ) (id : ℕ) (p : StationParams) : Station :=
  { id := id, name := p.name, admarea := p.admarea, district := p.district,
    address := p.address, owner := p.owner, test_date := p.test_date,
    eco_status := p.eco_status, latitude := p.latitude,
    longitude := p.longitude, created_at := now, updated_at := now }

/-- One execution of `upsert_sql`: `none` models a raised database error
(invalid value for a numeric column); otherwise insert-or-update on the
`(name, address)` unique key. -/
def upsertStation (now : ℕ) (st : DBState) (p : StationParams) : Option DBState :=
  if (validCoord p.latitude && validCoord p.longitude) = false then none
  else if st.rows.any (keyMatches p) then
    some { st with rows := st.rows.map (fun s => if keyMatches p s then applyUpdate now p s else s) }
  else
    some { rows := st.rows ++ [freshRow now st.nextId p], nextId := st.nextId + 1 }

/-- Ledger entry for one processed (non-skipped) record: its key, which feed
it came from, and whether the preceding `SELECT 1` found no row (so the
counters treat it as "added" rather than "updated"). -/
structure ImportEvent where
  name : PyVal
  address : PyVal
  eco : Bool
  added : Bool
deriving DecidableEq

/-- One iteration of the item loop (`import_data`, lines 134-165): normalize,
`continue` on a missing key, otherwise `SELECT 1` for the key then upsert.
`none` propagates a raised exception. -/
def processItem (now : ℕ) (eco : Bool) (st : DBState) (item : PyVal) :
    Option (DBState × List ImportEvent) :=
  match normalizeRecord eco item with
  | .fail => none
  | .skip => some (st, [])
  | .ok p =>
      let wasThere := st.rows.any (keyMatches p)
      match upsertStation now st p with
      | none => none
      | some st2 => some (st2, [⟨p.name, p.address, eco, !wasThere⟩])

/-- Sequential processing of a flattened run: each element is one record
tagged with the eco flag of the feed it belongs to.  A raised exception
(`none`) aborts the remainder. -/
def processSeq (now : ℕ) (st : DBState) : List (Bool × PyVal) → Option (DBState × List ImportEvent)
  | [] => some (st, [])
  | (eco, item) :: rest =>
      match processItem now eco st item with
      | none => none
      | some (st2, evs) =>
          match processSeq now st2 rest with
          | none => none
          | some (st3, evs2) => some (st3, evs ++ evs2)

/-- The item loop for one feed (`for item in data`). -/
def processItems (now : ℕ) (eco : Bool) (st : DBState) (items : List PyVal) :
    Option (DBState × List ImportEvent) :=
  processSeq now st (items.map (fun i => (eco, i)))

/-- Flattened record sequence of one run of `import_data`: the `URLS` dict
iterates `"eco"` first, then `"non_eco"`; a feed whose fetch failed
contributes nothing (its `except` clause is `continue`). -/
def runSeq (ecoPayload nonEcoPayload : Option (List PyVal)) : List (Bool × PyVal) :=
  (match ecoPayload with
   | some items => items.map (fun i => (true, i))
   | none => []) ++
  (match nonEcoPayload with
   | some items => items.map (fun i => (false, i))
   | none => [])

/-- One run of the import loop of `import_data` (lines 124-169).  The single
`with engine.begin()` block spans both feeds, so a raised database error
rolls every write of the run back to the initial state and surfaces to the
caller (modelled by a `none` event ledger). -/
def importRun (now : ℕ) (st : DBState) (ecoPayload nonEcoPayload : Option (List PyVal)) :
    DBState × Option (List ImportEvent) :=
  match processSeq now st (runSeq ecoPayload nonEcoPayload) with
  | some (st2, evs) => (st2, some evs)
  | none => (st, none)

/-- The "added" counter aggregated over a ledger (restricted to one feed by
filtering on the `eco` flag if desired). -/
def addedCount (evs : List ImportEvent) : ℕ :=
  (evs.filter (fun e => e.added)).length

/-- The "updated" counter aggregated over a ledger. -/
def updatedCount (evs : List ImportEvent) : ℕ :=
  (evs.filter (fun e => !e.added)).length

/-- A station row with its volatile `updated_at` column blanked, for the
"byte-identical except update timestamps" comparison. -/
def eraseUpd (s : Station) : Station := { s with updated_at := 0 }

/-- Does the table hold a row with the given natural key? -/
def hasKey (st : DBState) (k : PyVal × PyVal) : Bool :=
  st.rows.any (fun s => s.name = k.1 && s.address = k.2)

/-- Keys of the records of a flattened run that survive normalization, in
processing order. -/
def validKeys (l : List (Bool × PyVal)) : List (PyVal × PyVal) :=
  l.filterMap (fun e =>
    match normalizeRecord e.1 e.2 with
    | .ok p => some (p.name, p.address)
    | _ => none)

/-! ## Clustering (`simple_kmeans`, `src/backend/main.py` lines 431-451)

Coordinates are exact rationals; `np.allclose` on centroids is abstracted to
exact equality (the claims below never depend on the tolerance), and the
`np.sqrt` inside the distance computation is dropped since `argmin` is
invariant under the monotone square root. -/

/-- A `(lat, lon)` coordinate pair. -/
abbrev Point := ℚ × ℚ

/-- Squared Euclidean distance over `(lat, lon)`. -/
def sqDist (p q : Point) : ℚ := (p.1 - q.1) ^ 2 + (p.2 - q.2) ^ 2

/-- Worker for `argminIdx`: current best value/index, next index, rest. -/
def argminGo (bestVal : ℚ) (bestIdx i : ℕ) : List ℚ → ℕ
  | [] => bestIdx
  | y :: ys => if y < bestVal then argminGo y i (i + 1) ys else argminGo bestVal bestIdx (i + 1) ys

/-- `np.argmin` over a list: index of the first minimum.  (On an empty list
numpy raises; the only caller below guards `1 ≤ k ≤ len(points)`, so the
`[]` case is unreachable there.) -/
def argminIdx : List ℚ → ℕ
  | [] => 0
  | x :: rest => argminGo x 0 1 rest

/-- `labels = np.argmin(distances, axis=1)`. -/
def assignLabels (points centroids : List Point) : List ℕ :=
  points.map (fun p => argminIdx (centroids.map (sqDist p)))

/-- Mean of a nonempty point list (`.mean(axis=0)`). -/
def meanPoint (ps : List Point) : Point :=
  ((ps.map Prod.fst).sum / ps.length, (ps.map Prod.snd).sum / ps.length)

/-- The recomputed centroid array: mean of the points of each label, keeping the
previous centroid for a label that received no points. -/
def newCentroids (points : List Point) (labels : List ℕ) (centroids : List Point) :
    List Point :=
  (List.range centroids.length).map (fun i =>
    let cluster := ((points.zip labels).filter (fun pl => pl.2 = i)).map Prod.fst
    if cluster.isEmpty then centroids.getD i (0, 0) else meanPoint cluster)

/-- The refinement loop (`for _ in range(max_iters)`): compute labels from the
current centroids, recompute centroids, stop on convergence or when the
iteration budget runs out, returning the labels computed from the centroids of
the final iteration.  Fuel `0` corresponds to `max_iters = 0` (never used by
the program, which always passes the default 100). -/
def kmeansIter (points : List Point) : List Point → ℕ → List ℕ
  | _, 0 => []
  | centroids, fuel + 1 =>
      let labels := assignLabels points centroids
      let nc := newCentroids points labels centroids
      if nc = centroids ∨ fuel = 0 then labels
      else kmeansIter points nc fuel

/-- `np.random.seed(s)`: the process-global generator state is replaced by a
state depending only on the seed, discarding whatever ambient state was
current. -/
def npSeed (_ambient : ℕ) (seed : ℕ) : ℕ := seed

/-- Model of the seeded `np.random.choice(n, k, replace=False)`: some fixed
deterministic function of the generator state returning `k` distinct indices
below `n` (for `k ≤ n`).  The concrete permutation that the Mersenne Twister of numpy
produces is irrelevant to every claim below, which only use determinism,
distinctness and the index bound. -/
def npChoiceNoReplace (state n k : ℕ) : List ℕ :=
  (((List.range n).rotate state).take k)

/-- `simple_kmeans` from `src/backend/main.py` (lines 431-451).  `ambientRng`
is the global numpy generator state at call time; the function immediately
overwrites it via `np.random.seed(42)`.  The result is `none` when the call
raises: for `k < 0`, `np.random.choice` rejects a negative sample size, and
for `k = 0` (with the guard `len(points) < k` false) `np.argmin` over the
empty centroid axis raises `ValueError`. -/
def simple_kmeans (ambientRng : ℕ) (points : List Point) (k : ℤ) (maxIters : ℕ) :
    Option (List ℕ) :=
  if (points.length : ℤ) < k then some (List.replicate points.length 0)
  else
    let state := npSeed ambientRng 42
    if k ≤ 0 then none
    else
      let idxs := npChoiceNoReplace state points.length k.toNat
      let centroids := idxs.map (fun i => points.getD i (0, 0))
      some (kmeansIter points centroids maxIters)

/-! ## Derived notions used in the statements -/

/-- The natural key of a parameter dict. -/
def keyOf (p : StationParams) : PyVal × PyVal := (p.name, p.address)

/-- The natural key of a persisted row. -/
def rowKey (s : Station) : PyVal × PyVal := (s.name, s.address)

/-- Agreement of a row with a parameter dict on exactly the seven columns the
`DO UPDATE` arm of the upsert overwrites. -/
def fieldsEq (s : Station) (p : StationParams) : Prop :=
  s.admarea = p.admarea ∧ s.district = p.district ∧ s.owner = p.owner ∧
  s.test_date = p.test_date ∧ s.eco_status = p.eco_status ∧
  s.latitude = p.latitude ∧ s.longitude = p.longitude

instance (s : Station) (p : StationParams) : Decidable (fieldsEq s p) := by
  unfold fieldsEq; infer_instance

/-- Ledger entries concerning one natural key. -/
def keyEvents (k : PyVal × PyVal) (evs : List ImportEvent) : List ImportEvent :=
  evs.filter (fun ev => ev.name = k.1 && ev.address = k.2)

/-- The rows of the table carrying one natural key, in table order. -/
def rowsAt (st : DBState) (k : PyVal × PyVal) : List Station :=
  st.rows.filter (fun s => decide (rowKey s = k))

/-- The coordinates list of a "structured" geoData value in the sense of the
spec: a dict whose `coordinates` entry is a list of length at least 2. -/
def structuredCoords (v : PyVal) : Option (List PyVal) :=
  match v with
  | .vdict es =>
      match List.lookup "coordinates" es with
      | some (.vlist cs) => if 2 ≤ cs.length then some cs else none
      | _ => none
  | _ => none

/-- The geoData cell a record hands to `extract_coordinates` (Python `None`
for every malformed container, which cannot reach the call anyway). -/
def geoDataOf (item : PyVal) : PyVal :=
  match item with
  | .vdict es =>
      match List.lookup "Cells" es with
      | some (.vdict cs) => dictGet cs "geoData"
      | _ => .vnone
  | _ => .vnone

/-- `extract_coordinates` as worded by the amended specification: a structured
value returns `(coords[1], coords[0])` verbatim (whether or not the entries
are numbers); a free-text value with at least two numeric substrings returns
the first two, converted by `float`, as `(lat, lon)`; everything else yields
`(None, None)`. -/
def extract_coordinates_spec (v : PyVal) : PyVal × PyVal :=
  match structuredCoords v with
  | some coords => (coords.getD 1 .vnone, coords.getD 0 .vnone)
  | none =>
      match v with
      | .vstr s =>
          let nums := findNums s.data
          if 2 ≤ nums.length then
            (.vnum (pyFloat (nums.getD 1 [])), .vnum (pyFloat (nums.getD 0 [])))
          else (.vnone, .vnone)
      | _ => (.vnone, .vnone)

/-- `parse_date` as the specification words it: formats tried in fixed order,
day.month.year before year-month-day, first match wins; empty input or input
matching no format yields `None`. -/
def parse_date_spec (v : PyVal) : Option SimpleDate :=
  match v with
  | .vstr s =>
      if s = "" then none
      else
        match parseDMY s.data with
        | some d => some d
        | none => parseYMD s.data
  | _ => none

/-! ## C5: `extract_coordinates` -/

/-- C5 (counterexample).  The claim states that a structured value whose
`coordinates` entry holds fewer than two numbers yields `(None, None)`; the
code never checks that the entries are numbers and returns them verbatim, so
`{"coordinates": ["a", "b"]}` comes back as `("b", "a")`. -/
theorem extract_coordinates_nonnumeric_structured :
    extract_coordinates (.vdict [("coordinates", .vlist [.vstr "a", .vstr "b"])]) =
      (.vstr "b", .vstr "a") ∧
    (PyVal.vstr "b", PyVal.vstr "a") ≠ ((PyVal.vnone : PyVal), (PyVal.vnone : PyVal)) :=
  ⟨by decide, by decide⟩

/-- C5 (amended).  `extract_coordinates` equals the amended specification
(structured values return `coords[1], coords[0]` verbatim, with no check that
the entries are numbers; text is scanned for numeric substrings; anything
else yields `(None, None)`; no exception is ever raised — the function is
total), and it satisfies the concrete test vectors of the spec. -/
theorem extract_coordinates_matches_spec :
    (∀ v, extract_coordinates v = extract_coordinates_spec v) ∧
    extract_coordinates (.vdict [("coordinates", .vlist [.vnum ⟨305, 10⟩, .vnum ⟨557, 10⟩])]) =
      (.vnum ⟨557, 10⟩, .vnum ⟨305, 10⟩) ∧
    extract_coordinates (.vstr "POINT(30.5 55.7)") = (.vnum ⟨557, 10⟩, .vnum ⟨305, 10⟩) ∧
    extract_coordinates (.vstr "") = (.vnone, .vnone) := by
  refine ⟨?_, by decide, by decide, by decide⟩
  intro v
  cases v with
  | vnone => rfl
  | vnum q =>
      by_cases h : q.num = 0 <;>
        simp [extract_coordinates, extract_coordinates_spec, structuredCoords, PyVal.truthy, h]
  | vstr s =>
      by_cases h : s = ""
      · subst h; rfl
      · simp [extract_coordinates, extract_coordinates_spec, structuredCoords, PyVal.truthy, h]
  | vlist xs => cases xs <;> rfl
  | vdict es =>
      cases es with
      | nil => rfl
      | cons a l =>
          cases hl : List.lookup "coordinates" (a :: l) with
          | none =>
              simp [extract_coordinates, extract_coordinates_spec, structuredCoords,
                PyVal.truthy, hl]
          | some w =>
              cases w with
              | vlist cs =>
                  by_cases hlen : 2 ≤ cs.length <;>
                    simp [extract_coordinates, extract_coordinates_spec, structuredCoords,
                      PyVal.truthy, hl, hlen]
              | _ =>
                  simp [extract_coordinates, extract_coordinates_spec, structuredCoords,
                    PyVal.truthy, hl]

/-! ## C6: `parse_date` -/

/-- C6.  `safe_parse_date` implements exactly the specified strategy: formats
in fixed order (`%d.%m.%Y` first, `%Y-%m-%d` second), first match wins, empty
or unmatched input yields `None`, and the function is total (the source
swallows every exception, including the `TypeError` raised by truthy
non-string input).  The test vectors of the spec hold. -/
theorem safe_parse_date_matches_spec :
    (∀ v, safe_parse_date v = parse_date_spec v) ∧
    safe_parse_date (.vstr "01.02.2023") = some ⟨2023, 2, 1⟩ ∧
    safe_parse_date (.vstr "2023-02-01") = some ⟨2023, 2, 1⟩ ∧
    safe_parse_date (.vstr "garbage") = none ∧
    safe_parse_date (.vstr "") = none := by
  refine ⟨?_, by decide, by decide, by decide, by decide⟩
  intro v
  cases v with
  | vnone => rfl
  | vnum q => by_cases h : q.num = 0 <;> simp [safe_parse_date, parse_date_spec, PyVal.truthy, h]
  | vstr s => by_cases h : s = "" <;> simp [safe_parse_date, parse_date_spec, PyVal.truthy, h]
  | vlist xs => cases xs <;> rfl
  | vdict es => cases es <;> rfl

/-! ## C7, C8, C9: clustering -/

/-- C7.  When fewer points than clusters are supplied, `simple_kmeans` skips
the refinement loop entirely and labels every point `0`. -/
theorem simple_kmeans_degenerate (rng : ℕ) (points : List Point) (k : ℤ) (m : ℕ)
    (_hk : 0 < k) (h : (points.length : ℤ) < k) :
    simple_kmeans rng points k m = some (List.replicate points.length 0) := by
  simp [simple_kmeans, h]

/-- C7 (witness): with `k = 3` and exactly two points the result is `[0, 0]`. -/
theorem simple_kmeans_degenerate_witness :
    simple_kmeans 0 [((0 : ℚ), (0 : ℚ)), ((1 : ℚ), (1 : ℚ))] 3 100 = some (List.replicate 2 0) :=
  simple_kmeans_degenerate 0 [((0 : ℚ), (0 : ℚ)), ((1 : ℚ), (1 : ℚ))] 3 100
    (by decide) (by decide)

/-- C8 (counterexample).  The claim says every invocation with `k ≤ 0`
returns a trivial/empty result and never raises; in fact `k = 0` with a
nonempty point set reaches `np.argmin` over an empty centroid axis, which
raises `ValueError` (modelled by `none`). -/
theorem simple_kmeans_kzero_raises :
    simple_kmeans 0 [((0 : ℚ), (0 : ℚ))] 0 100 = none := by decide

/-- C8 (amended).  An empty point set with positive `k` returns the empty
label list without raising; any invocation with `k ≤ 0` raises (the
only call site of the application uses `k = 3` and never reaches this case). -/
theorem simple_kmeans_trivial_amended :
    (∀ rng k m, 0 < k → simple_kmeans rng ([] : List Point) k m = some []) ∧
    (∀ rng (points : List Point) k m, k ≤ 0 → simple_kmeans rng points k m = none) := by
  constructor
  · intro rng k m hk
    simp [simple_kmeans, hk]
  · intro rng points k m hk
    have h1 : ¬ ((points.length : ℤ) < k) := by
      have : (0 : ℤ) ≤ (points.length : ℤ) := Int.natCast_nonneg _
      omega
    simp [simple_kmeans, h1, hk]

/-- C8 (witness for the amended statement). -/
theorem simple_kmeans_trivial_amended_witness :
    simple_kmeans 1 ([] : List Point) 5 100 = some [] ∧
    simple_kmeans 1 [((2 : ℚ), (3 : ℚ))] (-1) 100 = none :=
  ⟨simple_kmeans_trivial_amended.1 1 5 100 (by decide),
   simple_kmeans_trivial_amended.2 1 [((2 : ℚ), (3 : ℚ))] (-1) 100 (by decide)⟩

/-- C9.  Clustering is deterministic: the result never depends on the ambient
global generator state, because the code reseeds (`np.random.seed(42)`)
before sampling the initial centroids; moreover the initialization draws
duplicate-free in-range indices (a duplicate-free subset of the input points)
of the requested size whenever `k ≤ n`. -/
theorem simple_kmeans_deterministic :
    (∀ rng1 rng2 points k m, simple_kmeans rng1 points k m = simple_kmeans rng2 points k m) ∧
    (∀ state n k, k ≤ n →
      (npChoiceNoReplace state n k).Nodup ∧
      (∀ i ∈ npChoiceNoReplace state n k, i < n) ∧
      (npChoiceNoReplace state n k).length = k) := by
  constructor
  · intro rng1 rng2 points k m; rfl
  · intro state n k hk
    refine ⟨?_, ?_, ?_⟩
    · exact List.Nodup.sublist (List.take_sublist _ _)
        (List.nodup_rotate.mpr (List.nodup_range n))
    · intro i hi
      have : i ∈ (List.range n).rotate state :=
        List.mem_of_mem_take hi
      exact List.mem_range.mp (List.mem_rotate.mp this)
    · simp [npChoiceNoReplace, List.length_take, List.length_rotate, hk]

/-- C9 (witness for the hypothesis-bearing initialization conjunct). -/
theorem simple_kmeans_deterministic_witness :
    (npChoiceNoReplace 42 5 3).Nodup ∧
    (∀ i ∈ npChoiceNoReplace 42 5 3, i < 5) ∧
    (npChoiceNoReplace 42 5 3).length = 3 :=
  simple_kmeans_deterministic.2 42 5 3 (by decide)

/-! ## C3: the `DO UPDATE` arm overwrites exactly the seven listed columns -/

/-- C3.  When the upsert hits an existing `(name, address)` key, the
resulting table is the old one with every matching row rewritten to take
`admarea`, `district`, `owner`, `test_date`, `eco_status`, `latitude`,
`longitude` from the new parameters and `updated_at` from the current clock,
while `id`, `name`, `address` and `created_at` are carried over unchanged
(and the id sequence does not advance). -/
theorem upsert_update_effect (now : ℕ) (st : DBState) (p : StationParams) (s : Station)
    (hlat : validCoord p.latitude = true) (hlon : validCoord p.longitude = true)
    (hs : s ∈ st.rows) (hmatch : keyMatches p s = true) :
    upsertStation now st p =
      some { st with rows := st.rows.map (fun t => if keyMatches p t then
        { id := t.id, name := t.name, admarea := p.admarea, district := p.district,
          address := t.address, owner := p.owner, test_date := p.test_date,
          eco_status := p.eco_status, latitude := p.latitude, longitude := p.longitude,
          created_at := t.created_at, updated_at := now } else t) } := by
  have hany : st.rows.any (keyMatches p) = true := List.any_eq_true.mpr ⟨s, hs, hmatch⟩
  simp [upsertStation, hlat, hlon, hany, applyUpdate]

/-- Concrete row for the C3 witness. -/
def frameRow : Station :=
  { id := 4, name := .vstr "A", admarea := .vnone, district := .vnone,
    address := .vstr "a1", owner := .vnone, test_date := none, eco_status := true,
    latitude := .vnone, longitude := .vnone, created_at := 3, updated_at := 3 }

/-- Concrete parameters for the C3 witness. -/
def frameParams : StationParams :=
  { name := .vstr "A", admarea := .vstr "adm", district := .vstr "d",
    address := .vstr "a1", owner := .vstr "own", test_date := some ⟨2023, 2, 1⟩,
    eco_status := false, latitude := .vnum ⟨557, 10⟩, longitude := .vnum ⟨305, 10⟩ }

/-- C3 (witness): the update keeps `id = 4` and `created_at = 3`, overwrites
the seven listed columns and stamps `updated_at = 9`. -/
theorem upsert_update_effect_witness :
    upsertStation 9 ⟨[frameRow], 5⟩ frameParams =
      some ⟨[{ id := 4, name := .vstr "A", admarea := .vstr "adm", district := .vstr "d",
               address := .vstr "a1", owner := .vstr "own", test_date := some ⟨2023, 2, 1⟩,
               eco_status := false, latitude := .vnum ⟨557, 10⟩,
               longitude := .vnum ⟨305, 10⟩, created_at := 3, updated_at := 9 }], 5⟩ :=
  (upsert_update_effect 9 ⟨[frameRow], 5⟩ frameParams frameRow
    (by decide) (by decide) (by decide) (by decide)).trans (by decide)

/-! ## C4: the claimed coordinate invariant of normalized records -/

/-- The coordinate part of the `NormalizedStationRecord` invariant exactly as
the specification claims it: both coordinates absent, or both present with
latitude in `[-90, 90]` and longitude in `[-180, 180]`. -/
def coordInvariant (p : StationParams) : Prop :=
  (p.latitude = .vnone ∧ p.longitude = .vnone) ∨
  (∃ a b : PyNum, p.latitude = .vnum a ∧ p.longitude = .vnum b ∧
    -90 ≤ a.toRat ∧ a.toRat ≤ 90 ∧ -180 ≤ b.toRat ∧ b.toRat ≤ 180)

/-- A record whose free-text geoData parses to latitude `95.7`. -/
def outOfRangeRec : PyVal :=
  .vdict [("Cells", .vdict [("FullName", .vstr "R"), ("Address", .vstr "r1"),
    ("geoData", .vstr "POINT(30.5 95.7)")])]

/-- The parameters `outOfRangeRec` normalizes to. -/
def outOfRangeParams : StationParams :=
  { name := .vstr "R", admarea := .vnone, district := .vnone, address := .vstr "r1",
    owner := .vnone, test_date := none, eco_status := true,
    latitude := .vnum ⟨957, 10⟩, longitude := .vnum ⟨305, 10⟩ }

/-- A record whose structured geoData holds `[null, 5.0]`. -/
def oneSidedRec : PyVal :=
  .vdict [("Cells", .vdict [("FullName", .vstr "S"), ("Address", .vstr "s1"),
    ("geoData", .vdict [("coordinates", .vlist [.vnone, .vnum ⟨5, 1⟩])])])]

/-- The parameters `oneSidedRec` normalizes to. -/
def oneSidedParams : StationParams :=
  { name := .vstr "S", admarea := .vnone, district := .vnone, address := .vstr "s1",
    owner := .vnone, test_date := none, eco_status := true,
    latitude := .vnum ⟨5, 1⟩, longitude := .vnone }

/-- C4 (counterexample).  Two records that survive normalization and violate
the claimed invariant: one has latitude `95.7 ∉ [-90, 90]` (no range check
exists in the code), the other has a present latitude with an absent
longitude (the structured branch returns list entries verbatim). -/
theorem normalize_invariant_counterexample :
    normalizeRecord true outOfRangeRec = .ok outOfRangeParams ∧
    ¬ coordInvariant outOfRangeParams ∧
    normalizeRecord true oneSidedRec = .ok oneSidedParams ∧
    ¬ coordInvariant oneSidedParams := by
  refine ⟨by decide, ?_, by decide, ?_⟩
  · rintro (⟨h1, -⟩ | ⟨a, b, ha, -, -, h90, -, -⟩)
    · exact absurd h1 (by decide)
    · rw [show outOfRangeParams.latitude = PyVal.vnum ⟨957, 10⟩ from rfl] at ha
      injection ha with ha2
      rw [← ha2] at h90
      norm_num [PyNum.toRat] at h90
  · rintro (⟨h1, -⟩ | ⟨a, b, -, hb, -⟩)
    · exact absurd h1 (by decide)
    · rw [show oneSidedParams.longitude = PyVal.vnone from rfl] at hb
      exact PyVal.noConfusion hb

/-- Helper for C4: outside the structured-dict case, `extract_coordinates`
returns either two absences or two numbers. -/
theorem extract_coords_shape (v : PyVal) (h : structuredCoords v = none) :
    extract_coordinates v = (.vnone, .vnone) ∨
    ∃ a b : PyNum, extract_coordinates v = (.vnum a, .vnum b) := by
  cases v with
  | vnone => left; rfl
  | vnum q => left; by_cases hq : q.num = 0 <;> simp [extract_coordinates, PyVal.truthy, hq]
  | vstr s =>
      by_cases hs : s = ""
      · left; subst hs; rfl
      · by_cases hn : 2 ≤ (findNums s.data).length
        · right
          refine ⟨pyFloat ((findNums s.data).getD 1 []),
            pyFloat ((findNums s.data).getD 0 []), ?_⟩
          simp [extract_coordinates, PyVal.truthy, hs, hn]
        · left; simp [extract_coordinates, PyVal.truthy, hs, hn]
  | vlist xs => left; cases xs <;> rfl
  | vdict es =>
      cases es with
      | nil => left; rfl
      | cons a l =>
          left
          cases hl : List.lookup "coordinates" (a :: l) with
          | none => simp [extract_coordinates, PyVal.truthy, hl]
          | some w =>
              cases w with
              | vlist cs =>
                  have hlen : ¬ 2 ≤ cs.length := by
                    intro hc
                    simp [structuredCoords, hl, hc] at h
                  simp [extract_coordinates, PyVal.truthy, hl, hlen]
              | _ => simp [extract_coordinates, PyVal.truthy, hl]

/-- C4 (amended).  Every record surviving normalization whose geoData is not
a structured coordinates dict has latitude and longitude both absent or both
numeric; no range validation exists, so present values may lie outside
`[-90, 90] × [-180, 180]` (see the counterexample). -/
theorem normalize_coords_amended (eco : Bool) (item : PyVal) (p : StationParams)
    (h : normalizeRecord eco item = .ok p)
    (hns : structuredCoords (geoDataOf item) = none) :
    (p.latitude = .vnone ∧ p.longitude = .vnone) ∨
    ∃ a b : PyNum, p.latitude = .vnum a ∧ p.longitude = .vnum b := by
  cases item with
  | vnone => exact absurd h (by simp [normalizeRecord])
  | vnum q => exact absurd h (by simp [normalizeRecord])
  | vstr s => exact absurd h (by simp [normalizeRecord])
  | vlist xs => exact absurd h (by simp [normalizeRecord])
  | vdict es =>
      cases hc : List.lookup "Cells" es with
      | none =>
          simp only [normalizeRecord, hc] at h
          exact absurd h (by simp [normalizeRecord.normalizeCells, dictGet, PyVal.truthy])
      | some w =>
          cases w with
          | vdict cs =>
              have hgeo : geoDataOf (.vdict es) = dictGet cs "geoData" := by
                simp [geoDataOf, hc]
              rw [hgeo] at hns
              have hred : normalizeRecord eco (.vdict es) =
                  normalizeRecord.normalizeCells eco cs := by
                simp [normalizeRecord, hc]
              rw [hred] at h
              unfold normalizeRecord.normalizeCells at h
              by_cases hskip :
                  (dictGet cs "FullName").truthy = false ∨ (dictGet cs "Address").truthy = false
              · rw [if_pos hskip] at h; exact absurd h (by simp)
              · rw [if_neg hskip] at h
                injection h with h2
                rcases extract_coords_shape (dictGet cs "geoData") hns with hsh | ⟨a, b, hsh⟩
                · left
                  constructor
                  · rw [← h2]; show (extract_coordinates (dictGet cs "geoData")).1 = _
                    rw [hsh]
                  · rw [← h2]; show (extract_coordinates (dictGet cs "geoData")).2 = _
                    rw [hsh]
                · right
                  refine ⟨a, b, ?_, ?_⟩
                  · rw [← h2]; show (extract_coordinates (dictGet cs "geoData")).1 = _
                    rw [hsh]
                  · rw [← h2]; show (extract_coordinates (dictGet cs "geoData")).2 = _
                    rw [hsh]
          | vnone => simp only [normalizeRecord, hc] at h; exact absurd h (by simp)
          | vnum q => simp only [normalizeRecord, hc] at h; exact absurd h (by simp)
          | vstr s => simp only [normalizeRecord, hc] at h; exact absurd h (by simp)
          | vlist xs => simp only [normalizeRecord, hc] at h; exact absurd h (by simp)

/-- Concrete record for the C4 amended witness. -/
def textGeoRec : PyVal :=
  .vdict [("Cells", .vdict [("FullName", .vstr "W"), ("Address", .vstr "w1"),
    ("geoData", .vstr "POINT(1 2)")])]

/-- The parameters `textGeoRec` normalizes to. -/
def textGeoParams : StationParams :=
  { name := .vstr "W", admarea := .vnone, district := .vnone, address := .vstr "w1",
    owner := .vnone, test_date := none, eco_status := true,
    latitude := .vnum ⟨2, 1⟩, longitude := .vnum ⟨1, 1⟩ }

/-- C4 (witness for the amended statement). -/
theorem normalize_coords_amended_witness :
    (textGeoParams.latitude = .vnone ∧ textGeoParams.longitude = .vnone) ∨
    ∃ a b : PyNum, textGeoParams.latitude = .vnum a ∧ textGeoParams.longitude = .vnum b :=
  normalize_coords_amended true textGeoRec textGeoParams (by decide) (by decide)

/-! ## Supporting lemmas about single upserts -/

/-- `keyMatches` is key equality. -/
theorem keyMatches_iff (p : StationParams) (s : Station) :
    keyMatches p s = true ↔ rowKey s = keyOf p := by
  simp [keyMatches, rowKey, keyOf, Prod.ext_iff]

/-- `hasKey` as an existential over rows. -/
theorem hasKey_iff (st : DBState) (k : PyVal × PyVal) :
    hasKey st k = true ↔ ∃ s ∈ st.rows, rowKey s = k := by
  simp [hasKey, List.any_eq_true, rowKey, Prod.ext_iff]

/-- The update arm preserves the key of a row. -/
theorem applyUpdate_rowKey (now : ℕ) (p : StationParams) (s : Station) :
    rowKey (applyUpdate now p s) = rowKey s := rfl

/-- The row the insert arm builds carries the key of the parameters. -/
theorem freshRow_rowKey (now id : ℕ) (p : StationParams) :
    rowKey (freshRow now id p) = keyOf p := rfl

/-- A successful upsert had valid coordinate values. -/
theorem upsert_valid (now : ℕ) (st st2 : DBState) (p : StationParams)
    (h : upsertStation now st p = some st2) :
    validCoord p.latitude = true ∧ validCoord p.longitude = true := by
  cases hla : validCoord p.latitude <;> cases hlo : validCoord p.longitude <;>
      simp [upsertStation, hla, hlo] at h ⊢

/-- Shape of a successful upsert: the conflict arm maps the table in place,
the insert arm appends one fresh row and advances the id sequence. -/
theorem upsert_cases (now : ℕ) (st st2 : DBState) (p : StationParams)
    (h : upsertStation now st p = some st2) :
    (st.rows.any (keyMatches p) = true ∧
      st2.rows = st.rows.map (fun s => if keyMatches p s then applyUpdate now p s else s) ∧
      st2.nextId = st.nextId) ∨
    (st.rows.any (keyMatches p) = false ∧
      st2.rows = st.rows ++ [freshRow now st.nextId p] ∧
      st2.nextId = st.nextId + 1) := by
  obtain ⟨hla, hlo⟩ := upsert_valid now st st2 p h
  unfold upsertStation at h
  rw [hla, hlo] at h
  simp only [Bool.and_self, Bool.true_eq_false, if_false] at h
  by_cases ha : st.rows.any (keyMatches p) = true
  · left
    rw [if_pos ha] at h
    injection h with h2
    exact ⟨ha, by rw [← h2], by rw [← h2]⟩
  · right
    rw [if_neg ha] at h
    injection h with h2
    exact ⟨Bool.not_eq_true _ ▸ ha, by rw [← h2], by rw [← h2]⟩

/-- A successful upsert makes its key present. -/
theorem upsert_hasKey_self (now : ℕ) (st st2 : DBState) (p : StationParams)
    (h : upsertStation now st p = some st2) :
    hasKey st2 (keyOf p) = true := by
  rcases upsert_cases now st st2 p h with ⟨ha, hrows, -⟩ | ⟨-, hrows, -⟩
  · rcases List.any_eq_true.mp ha with ⟨s, hs, hm⟩
    refine (hasKey_iff _ _).mpr ⟨(if keyMatches p s then applyUpdate now p s else s), ?_, ?_⟩
    · rw [hrows]; exact List.mem_map.mpr ⟨s, hs, rfl⟩
    · rw [if_pos hm, applyUpdate_rowKey]; exact (keyMatches_iff p s).mp hm
  · exact (hasKey_iff _ _).mpr ⟨freshRow now st.nextId p,
      by rw [hrows]; exact List.mem_append_right _ (List.mem_singleton_self _), rfl⟩

/-- An upsert never removes a key. -/
theorem upsert_hasKey_mono (now : ℕ) (st st2 : DBState) (p : StationParams)
    (h : upsertStation now st p = some st2) (k : PyVal × PyVal)
    (hk : hasKey st k = true) : hasKey st2 k = true := by
  rcases (hasKey_iff st k).mp hk with ⟨s, hs, hsk⟩
  rcases upsert_cases now st st2 p h with ⟨-, hrows, -⟩ | ⟨-, hrows, -⟩
  · refine (hasKey_iff _ _).mpr ⟨(if keyMatches p s then applyUpdate now p s else s), ?_, ?_⟩
    · rw [hrows]; exact List.mem_map.mpr ⟨s, hs, rfl⟩
    · by_cases hm : keyMatches p s = true
      · rw [if_pos hm, applyUpdate_rowKey]; exact hsk
      · rw [if_neg hm]; exact hsk
  · exact (hasKey_iff _ _).mpr ⟨s, by rw [hrows]; exact List.mem_append_left _ hs, hsk⟩

/-- The only key an upsert can introduce is its own. -/
theorem upsert_hasKey_intro (now : ℕ) (st st2 : DBState) (p : StationParams)
    (h : upsertStation now st p = some st2) (k : PyVal × PyVal)
    (hk : hasKey st2 k = true) : hasKey st k = true ∨ k = keyOf p := by
  rcases (hasKey_iff st2 k).mp hk with ⟨s, hs, hsk⟩
  rcases upsert_cases now st st2 p h with ⟨-, hrows, -⟩ | ⟨-, hrows, -⟩
  · rw [hrows] at hs
    rcases List.mem_map.mp hs with ⟨t, ht, rfl⟩
    left
    refine (hasKey_iff _ _).mpr ⟨t, ht, ?_⟩
    by_cases hm : keyMatches p t = true
    · rw [if_pos hm, applyUpdate_rowKey] at hsk; exact hsk
    · rw [if_neg hm] at hsk; exact hsk
  · rw [hrows] at hs
    rcases List.mem_append.mp hs with hs | hs
    · exact Or.inl ((hasKey_iff _ _).mpr ⟨s, hs, hsk⟩)
    · right
      rw [List.mem_singleton.mp hs] at hsk
      rw [← hsk, freshRow_rowKey]

/-- After a successful upsert every row carrying the key of the upsert agrees with
the parameters on all seven updatable columns. -/
theorem upsert_rowsAt_post (now : ℕ) (st st2 : DBState) (p : StationParams)
    (h : upsertStation now st p = some st2) :
    ∀ s ∈ st2.rows, rowKey s = keyOf p → fieldsEq s p := by
  rcases upsert_cases now st st2 p h with ⟨-, hrows, -⟩ | ⟨ha, hrows, -⟩
  · intro s hs hsk
    rw [hrows] at hs
    rcases List.mem_map.mp hs with ⟨t, ht, rfl⟩
    by_cases hm : keyMatches p t = true
    · rw [if_pos hm]
      exact ⟨rfl, rfl, rfl, rfl, rfl, rfl, rfl⟩
    · rw [if_neg hm] at hsk
      exact absurd ((keyMatches_iff p t).mpr hsk) hm
  · intro s hs hsk
    rw [hrows] at hs
    rcases List.mem_append.mp hs with hs | hs
    · have : keyMatches p s = true := (keyMatches_iff p s).mpr hsk
      have := List.any_eq_true.mpr ⟨s, hs, this⟩
      rw [ha] at this
      exact absurd this (by simp)
    · rw [List.mem_singleton.mp hs]
      exact ⟨rfl, rfl, rfl, rfl, rfl, rfl, rfl⟩

/-- Rows under any other key are untouched by an upsert (same rows, same
order, same every column). -/
theorem upsert_rowsAt_frame (now : ℕ) (st st2 : DBState) (p : StationParams)
    (h : upsertStation now st p = some st2) (k : PyVal × PyVal) (hk : k ≠ keyOf p) :
    rowsAt st2 k = rowsAt st k := by
  rcases upsert_cases now st st2 p h with ⟨-, hrows, -⟩ | ⟨-, hrows, -⟩
  · unfold rowsAt
    rw [hrows, List.filter_map]
    have h1 : ∀ s ∈ st.rows,
        ((fun s => decide (rowKey s = k)) ∘
          (fun s => if keyMatches p s then applyUpdate now p s else s)) s
          = decide (rowKey s = k) := by
      intro s _
      by_cases hm : keyMatches p s = true
      · simp only [Function.comp_apply, if_pos hm, applyUpdate_rowKey]
      · simp only [Function.comp_apply, if_neg hm]
    rw [List.filter_congr h1]
    have h2 : ∀ s ∈ st.rows.filter (fun s => decide (rowKey s = k)),
        (if keyMatches p s then applyUpdate now p s else s) = s := by
      intro s hs
      have hsk : rowKey s = k := of_decide_eq_true (List.mem_filter.mp hs).2
      have hm : ¬ keyMatches p s = true := fun hm => hk (hsk ▸ (keyMatches_iff p s).mp hm)
      rw [if_neg hm]
    rw [List.map_congr_left h2]
    exact List.map_id _
  · unfold rowsAt
    rw [hrows, List.filter_append]
    have h3 : List.filter (fun s => decide (rowKey s = k)) [freshRow now st.nextId p] = [] := by
      have hfr : rowKey (freshRow now st.nextId p) = keyOf p := rfl
      simp [List.filter_eq_nil_iff, hfr, Ne.symm hk]
    rw [h3, List.append_nil]

/-! ## Supporting lemmas about record sequences -/

/-- Inversion of one successful `processItem`. -/
theorem processItem_some (now : ℕ) (eco : Bool) (st : DBState) (item : PyVal)
    (st2 : DBState) (evs0 : List ImportEvent)
    (h : processItem now eco st item = some (st2, evs0)) :
    (normalizeRecord eco item = .skip ∧ st2 = st ∧ evs0 = []) ∨
    (∃ p, normalizeRecord eco item = .ok p ∧ upsertStation now st p = some st2 ∧
      evs0 = [⟨p.name, p.address, eco, !(st.rows.any (keyMatches p))⟩]) := by
  cases hn : normalizeRecord eco item with
  | fail => simp [processItem, hn] at h
  | skip =>
      simp only [processItem, hn, Option.some_inj, Prod.mk.injEq] at h
      exact Or.inl ⟨rfl, h.1.symm, h.2.symm⟩
  | ok p =>
      simp only [processItem, hn] at h
      cases hu : upsertStation now st p with
      | none => rw [hu] at h; exact absurd h (by simp)
      | some st4 =>
          rw [hu] at h
          simp only [Option.some_inj, Prod.mk.injEq] at h
          exact Or.inr ⟨p, rfl, by rw [← h.1]; exact hu, h.2.symm⟩

/-- Inversion of one cons step of a successful `processSeq`. -/
theorem processSeq_cons_some (now : ℕ) (st : DBState) (eco : Bool) (item : PyVal)
    (rest : List (Bool × PyVal)) (st3 : DBState) (evs : List ImportEvent)
    (h : processSeq now st ((eco, item) :: rest) = some (st3, evs)) :
    ∃ st2 evs0 evs2, processItem now eco st item = some (st2, evs0) ∧
      processSeq now st2 rest = some (st3, evs2) ∧ evs = evs0 ++ evs2 := by
  cases hpi : processItem now eco st item with
  | none => simp [processSeq, hpi] at h
  | some r =>
      obtain ⟨st2, evs0⟩ := r
      cases hps : processSeq now st2 rest with
      | none => simp [processSeq, hpi, hps] at h
      | some r2 =>
          obtain ⟨st4, evs2⟩ := r2
          simp only [processSeq, hpi, hps, Option.some_inj, Prod.mk.injEq] at h
          exact ⟨st2, evs0, evs2, rfl, by rw [← h.1]; exact hps, h.2.symm⟩

/-- `processSeq` distributes over concatenation. -/
theorem processSeq_append (now : ℕ) :
    ∀ (l1 l2 : List (Bool × PyVal)) (st : DBState),
      processSeq now st (l1 ++ l2) =
        match processSeq now st l1 with
        | none => none
        | some (st2, evs) =>
            match processSeq now st2 l2 with
            | none => none
            | some (st3, evs2) => some (st3, evs ++ evs2) := by
  intro l1
  induction l1 with
  | nil =>
      intro l2 st
      simp only [List.nil_append, processSeq]
      cases hl2 : processSeq now st l2 with
      | none => rfl
      | some r => obtain ⟨st3, evs2⟩ := r; simp
  | cons e rest ih =>
      intro l2 st
      obtain ⟨eco, item⟩ := e
      rw [List.cons_append]
      cases hpi : processItem now eco st item with
      | none => simp [processSeq, hpi]
      | some r =>
          obtain ⟨st2, evs0⟩ := r
          simp only [processSeq, hpi]
          rw [ih l2 st2]
          cases hps : processSeq now st2 rest with
          | none => simp
          | some r2 =>
              obtain ⟨st3, evs2⟩ := r2
              simp only []
              cases hl2 : processSeq now st3 l2 with
              | none => simp
              | some r3 => obtain ⟨st4, evs3⟩ := r3; simp

/-- `validKeys` on a cons whose record is skipped. -/
theorem validKeys_cons_skip (eco : Bool) (item : PyVal) (rest : List (Bool × PyVal))
    (h : normalizeRecord eco item = .skip) :
    validKeys ((eco, item) :: rest) = validKeys rest := by
  simp [validKeys, h]

/-- `validKeys` on a cons whose record normalizes. -/
theorem validKeys_cons_ok (eco : Bool) (item : PyVal) (rest : List (Bool × PyVal))
    (p : StationParams) (h : normalizeRecord eco item = .ok p) :
    validKeys ((eco, item) :: rest) = keyOf p :: validKeys rest := by
  simp [validKeys, h, keyOf]

/-- Processing never removes a key. -/
theorem processSeq_hasKey_mono :
    ∀ (L : List (Bool × PyVal)) (now : ℕ) (st st2 : DBState) (evs : List ImportEvent),
      processSeq now st L = some (st2, evs) →
      ∀ k, hasKey st k = true → hasKey st2 k = true := by
  intro L
  induction L with
  | nil =>
      intro now st st2 evs h k hk
      simp only [processSeq, Option.some_inj, Prod.mk.injEq] at h
      rw [← h.1]; exact hk
  | cons e rest ih =>
      intro now st st2 evs h k hk
      obtain ⟨eco, item⟩ := e
      obtain ⟨stm, evs0, evs2, hpi, hps, -⟩ := processSeq_cons_some now st eco item rest st2 evs h
      rcases processItem_some now eco st item stm evs0 hpi with ⟨-, rfl, -⟩ | ⟨p, -, hu, -⟩
      · exact ih now stm st2 evs2 hps k hk
      · exact ih now stm st2 evs2 hps k (upsert_hasKey_mono now st stm p hu k hk)

/-- The only keys processing can introduce are the keys of its own valid
records. -/
theorem processSeq_key_intro :
    ∀ (L : List (Bool × PyVal)) (now : ℕ) (st st2 : DBState) (evs : List ImportEvent),
      processSeq now st L = some (st2, evs) →
      ∀ k, hasKey st2 k = true → hasKey st k = true ∨ k ∈ validKeys L := by
  intro L
  induction L with
  | nil =>
      intro now st st2 evs h k hk
      simp only [processSeq, Option.some_inj, Prod.mk.injEq] at h
      rw [← h.1] at hk; exact Or.inl hk
  | cons e rest ih =>
      intro now st st2 evs h k hk
      obtain ⟨eco, item⟩ := e
      obtain ⟨stm, evs0, evs2, hpi, hps, -⟩ := processSeq_cons_some now st eco item rest st2 evs h
      rcases processItem_some now eco st item stm evs0 hpi with ⟨hn, rfl, -⟩ | ⟨p, hn, hu, -⟩
      · rcases ih now stm st2 evs2 hps k hk with hold | hmem
        · exact Or.inl hold
        · rw [validKeys_cons_skip eco item rest hn]; exact Or.inr hmem
      · rcases ih now stm st2 evs2 hps k hk with hold | hmem
        · rcases upsert_hasKey_intro now st stm p hu k hold with h1 | h1
          · exact Or.inl h1
          · rw [validKeys_cons_ok eco item rest p hn]
            exact Or.inr (h1 ▸ List.mem_cons_self _ _)
        · rw [validKeys_cons_ok eco item rest p hn]
          exact Or.inr (List.mem_cons_of_mem _ hmem)

/-- Rows under a key no remaining record writes are untouched. -/
theorem processSeq_rowsAt_frame :
    ∀ (L : List (Bool × PyVal)) (now : ℕ) (st st2 : DBState) (evs : List ImportEvent),
      processSeq now st L = some (st2, evs) →
      ∀ k, k ∉ validKeys L → rowsAt st2 k = rowsAt st k := by
  intro L
  induction L with
  | nil =>
      intro now st st2 evs h k _
      simp only [processSeq, Option.some_inj, Prod.mk.injEq] at h
      rw [← h.1]
  | cons e rest ih =>
      intro now st st2 evs h k hk
      obtain ⟨eco, item⟩ := e
      obtain ⟨stm, evs0, evs2, hpi, hps, -⟩ := processSeq_cons_some now st eco item rest st2 evs h
      rcases processItem_some now eco st item stm evs0 hpi with ⟨hn, rfl, -⟩ | ⟨p, hn, hu, -⟩
      · exact ih now stm st2 evs2 hps k (by rw [validKeys_cons_skip eco item rest hn] at hk; exact hk)
      · rw [validKeys_cons_ok eco item rest p hn] at hk
        have hk1 : k ≠ keyOf p := fun hkp => hk (hkp ▸ List.mem_cons_self _ _)
        have hk2 : k ∉ validKeys rest := fun hmem => hk (List.mem_cons_of_mem _ hmem)
        rw [ih now stm st2 evs2 hps k hk2]
        exact upsert_rowsAt_frame now st stm p hu k hk1

/-- The key of every ledger entry is the key of one of the valid records of the run. -/
theorem processSeq_events_keys :
    ∀ (L : List (Bool × PyVal)) (now : ℕ) (st st2 : DBState) (evs : List ImportEvent),
      processSeq now st L = some (st2, evs) →
      ∀ ev ∈ evs, (ev.name, ev.address) ∈ validKeys L := by
  intro L
  induction L with
  | nil =>
      intro now st st2 evs h ev hev
      simp only [processSeq, Option.some_inj, Prod.mk.injEq] at h
      rw [← h.2] at hev
      exact absurd hev (List.not_mem_nil _)
  | cons e rest ih =>
      intro now st st2 evs h ev hev
      obtain ⟨eco, item⟩ := e
      obtain ⟨stm, evs0, evs2, hpi, hps, heq⟩ := processSeq_cons_some now st eco item rest st2 evs h
      subst heq
      rcases processItem_some now eco st item stm evs0 hpi with ⟨hn, rfl, rfl⟩ | ⟨p, hn, hu, rfl⟩
      · rw [List.nil_append] at hev
        rw [validKeys_cons_skip eco item rest hn]
        exact ih now stm st2 evs2 hps ev hev
      · rw [validKeys_cons_ok eco item rest p hn]
        rcases List.mem_append.mp hev with hev | hev
        · rw [List.mem_singleton.mp hev]
          exact List.mem_cons_self _ _
        · exact List.mem_cons_of_mem _ (ih now stm st2 evs2 hps ev hev)

/-! ## C2: transaction granularity of the import run -/

/-- A valid eco-feed record (key `("A", "a1")`). -/
def okEcoRec : PyVal :=
  .vdict [("Cells", .vdict [("FullName", .vstr "A"), ("Address", .vstr "a1")])]

/-- A record whose write raises: its structured geoData carries strings,
which the store rejects for the numeric latitude/longitude columns. -/
def poisonRec : PyVal :=
  .vdict [("Cells", .vdict [("FullName", .vstr "B"), ("Address", .vstr "b1"),
    ("geoData", .vdict [("coordinates", .vlist [.vstr "x", .vstr "y"])])])]

/-- A valid non-eco-feed record (key `("C", "c1")`). -/
def okNonEcoRec : PyVal :=
  .vdict [("Cells", .vdict [("FullName", .vstr "C"), ("Address", .vstr "c1")])]

/-- C2 (counterexample).  A write failure partway through the batch of the eco
feed rolls back the whole run: the already-written eco record disappears,
the non-eco feed is never processed and committed (its key is absent from the
final state, which equals the initial state), and the run aborts — against
the claim that exactly the writes of the failing feed are rolled back while
the records of the other feed are still processed and committed. -/
theorem import_not_per_feed_transaction :
    importRun 5 ⟨[], 1⟩ (some [okEcoRec, poisonRec]) (some [okNonEcoRec]) = (⟨[], 1⟩, none) ∧
    hasKey (importRun 5 ⟨[], 1⟩ (some [okEcoRec, poisonRec]) (some [okNonEcoRec])).1
      (.vstr "C", .vstr "c1") = false :=
  ⟨by decide, by decide⟩

/-- C2 (amended).  All feeds of one run share one transaction: a store
failure partway through the batch of either feed rolls back the writes of
both feeds — a failure in the eco (first) batch leaves nothing committed,
and a failure in the non-eco (second) batch also undoes the writes the eco
batch had already made, the persisted state being exactly the state at run
entry in both cases — and aborts the run with the exception surfaced.  Only
a fetch failure is isolated per feed, in either direction: a run whose eco
fetch failed still processes and commits the non-eco feed normally, and a
run whose non-eco fetch failed still processes and commits the eco feed
normally. -/
theorem import_single_transaction_amended :
    (∀ now (st : DBState) items1 items2, processItems now true st items1 = none →
       importRun now st (some items1) (some items2) = (st, none)) ∧
    (∀ now (st st2 : DBState) items1 items2 evs1,
       processItems now true st items1 = some (st2, evs1) →
       processItems now false st2 items2 = none →
       importRun now st (some items1) (some items2) = (st, none)) ∧
    (∀ now (st st2 : DBState) items evs, processItems now false st items = some (st2, evs) →
       importRun now st none (some items) = (st2, some evs)) ∧
    (∀ now (st st2 : DBState) items evs, processItems now true st items = some (st2, evs) →
       importRun now st (some items) none = (st2, some evs)) := by
  refine ⟨?_, ?_, ?_, ?_⟩
  · intro now st items1 items2 h
    rw [processItems] at h
    unfold importRun runSeq
    rw [processSeq_append]
    rw [h]
  · intro now st st2 items1 items2 evs1 h1 h2
    rw [processItems] at h1 h2
    unfold importRun runSeq
    rw [processSeq_append]
    simp only [h1, h2]
  · intro now st st2 items evs h
    rw [processItems] at h
    unfold importRun runSeq
    rw [List.nil_append, h]
  · intro now st st2 items evs h
    rw [processItems] at h
    unfold importRun runSeq
    rw [List.append_nil, h]

/-- The row committed for the non-eco record in the C2 witness. -/
def nonEcoWitnessRow : Station :=
  { id := 1, name := .vstr "C", admarea := .vnone, district := .vnone,
    address := .vstr "c1", owner := .vnone, test_date := none, eco_status := false,
    latitude := .vnone, longitude := .vnone, created_at := 5, updated_at := 5 }

/-- The row committed for the eco record in the C2 witness. -/
def ecoWitnessRow : Station :=
  { id := 1, name := .vstr "A", admarea := .vnone, district := .vnone,
    address := .vstr "a1", owner := .vnone, test_date := none, eco_status := true,
    latitude := .vnone, longitude := .vnone, created_at := 5, updated_at := 5 }

/-- C2 (witness for the amended statement): all four conjuncts exercised —
eco-batch failure, non-eco-batch failure undoing the already-made eco write,
eco fetch failure, and non-eco fetch failure. -/
theorem import_single_transaction_amended_witness :
    importRun 5 ⟨[], 1⟩ (some [poisonRec]) (some [okNonEcoRec]) = (⟨[], 1⟩, none) ∧
    importRun 5 ⟨[], 1⟩ (some [okEcoRec]) (some [poisonRec]) = (⟨[], 1⟩, none) ∧
    importRun 5 ⟨[], 1⟩ none (some [okNonEcoRec]) =
      (⟨[nonEcoWitnessRow], 2⟩, some [⟨.vstr "C", .vstr "c1", false, true⟩]) ∧
    importRun 5 ⟨[], 1⟩ (some [okEcoRec]) none =
      (⟨[ecoWitnessRow], 2⟩, some [⟨.vstr "A", .vstr "a1", true, true⟩]) :=
  ⟨import_single_transaction_amended.1 5 ⟨[], 1⟩ [poisonRec] [okNonEcoRec] (by decide),
   import_single_transaction_amended.2.1 5 ⟨[], 1⟩ ⟨[ecoWitnessRow], 2⟩ [okEcoRec] [poisonRec]
     [⟨.vstr "A", .vstr "a1", true, true⟩] (by decide) (by decide),
   import_single_transaction_amended.2.2.1 5 ⟨[], 1⟩ ⟨[nonEcoWitnessRow], 2⟩ [okNonEcoRec]
     [⟨.vstr "C", .vstr "c1", false, true⟩] (by decide),
   import_single_transaction_amended.2.2.2 5 ⟨[], 1⟩ ⟨[ecoWitnessRow], 2⟩ [okEcoRec]
     [⟨.vstr "A", .vstr "a1", true, true⟩] (by decide)⟩

/-! ## C1: idempotence machinery -/

/-- Rows at a key are the rows with that key. -/
theorem mem_rowsAt (st : DBState) (k : PyVal × PyVal) (s : Station) :
    s ∈ rowsAt st k ↔ s ∈ st.rows ∧ rowKey s = k := by
  simp [rowsAt, List.mem_filter]

/-- `hasKey` at a parameter key is the conflict test of the upsert. -/
theorem hasKey_keyOf (st : DBState) (p : StationParams) :
    hasKey st (keyOf p) = st.rows.any (keyMatches p) := rfl

/-- What one finished run guarantees, for each suffix of its record sequence:
every record would normalize the same way again without raising; the coordinates
of a valid record are storable, its key is present in the final table, and
— when no later record writes the same key — the rows of the final table under
that key carry exactly its parameters. -/
def suffixOK (st1 : DBState) : List (Bool × PyVal) → Prop
  | [] => True
  | (eco, item) :: rest =>
      normalizeRecord eco item ≠ .fail ∧
      (∀ p, normalizeRecord eco item = .ok p →
        validCoord p.latitude = true ∧ validCoord p.longitude = true ∧
        hasKey st1 (keyOf p) = true ∧
        (keyOf p ∉ validKeys rest →
          ∀ s ∈ st1.rows, rowKey s = keyOf p → fieldsEq s p)) ∧
      suffixOK st1 rest

/-- A successful run establishes `suffixOK` of its final state over its own
record sequence. -/
theorem run_suffixOK :
    ∀ (L : List (Bool × PyVal)) (now : ℕ) (st st1 : DBState) (evs : List ImportEvent),
      processSeq now st L = some (st1, evs) → suffixOK st1 L := by
  intro L
  induction L with
  | nil => intro now st st1 evs _; trivial
  | cons e rest ih =>
      intro now st st1 evs h
      obtain ⟨eco, item⟩ := e
      obtain ⟨stm, evs0, evs2, hpi, hps, -⟩ := processSeq_cons_some now st eco item rest st1 evs h
      rcases processItem_some now eco st item stm evs0 hpi with ⟨hn, rfl, -⟩ | ⟨p, hn, hu, -⟩
      · refine ⟨by rw [hn]; intro hc; exact NormResult.noConfusion hc, ?_, ih now stm st1 evs2 hps⟩
        intro q hq
        rw [hn] at hq
        exact absurd hq (by intro hc; exact NormResult.noConfusion hc)
      · refine ⟨by rw [hn]; intro hc; exact NormResult.noConfusion hc, ?_, ih now stm st1 evs2 hps⟩
        intro q hq
        rw [hn] at hq
        injection hq with hq2
        subst hq2
        obtain ⟨hva, hvo⟩ := upsert_valid now st stm p hu
        refine ⟨hva, hvo, ?_, ?_⟩
        · exact processSeq_hasKey_mono rest now stm st1 evs2 hps (keyOf p)
            (upsert_hasKey_self now st stm p hu)
        · intro hnot s hs hsk
          have hmem : s ∈ rowsAt st1 (keyOf p) := (mem_rowsAt st1 (keyOf p) s).mpr ⟨hs, hsk⟩
          rw [processSeq_rowsAt_frame rest now stm st1 evs2 hps (keyOf p) hnot] at hmem
          obtain ⟨hs2, hsk2⟩ := (mem_rowsAt stm (keyOf p) s).mp hmem
          exact upsert_rowsAt_post now st stm p hu s hs2 hsk2

/-- Pointwise relation between a replay-in-progress table and the finished
table of the finished run: identity of id, key and creation time, and full agreement up to
`updated_at` on every row whose key the remaining records do not write. -/
def rowRel (ks : List (PyVal × PyVal)) (a b : Station) : Prop :=
  a.id = b.id ∧ a.name = b.name ∧ a.address = b.address ∧ a.created_at = b.created_at ∧
  (rowKey b ∈ ks ∨ eraseUpd a = eraseUpd b)

/-- The table-level replay relation. -/
def tblRel (ks : List (PyVal × PyVal)) (t u : DBState) : Prop :=
  t.nextId = u.nextId ∧ List.Forall₂ (rowRel ks) t.rows u.rows

/-- `tblRel` is reflexive. -/
theorem tblRel_refl (ks : List (PyVal × PyVal)) (st : DBState) : tblRel ks st st :=
  ⟨rfl, List.forall₂_same.mpr (fun _ _ => ⟨rfl, rfl, rfl, rfl, Or.inr rfl⟩)⟩

/-- Full agreement weakens to agreement modulo any key set. -/
theorem tblRel_weaken (ks : List (PyVal × PyVal)) (t u : DBState)
    (h : tblRel [] t u) : tblRel ks t u := by
  refine ⟨h.1, h.2.imp ?_⟩
  intro a b ⟨h1, h2, h3, h4, h5⟩
  rcases h5 with h5 | h5
  · exact absurd h5 (List.not_mem_nil _)
  · exact ⟨h1, h2, h3, h4, Or.inr h5⟩

/-- Row lists related by `rowRel` hold the same keys. -/
theorem forall₂_any_key (ks : List (PyVal × PyVal)) (k : PyVal × PyVal) :
    ∀ (l1 l2 : List Station), List.Forall₂ (rowRel ks) l1 l2 →
      (l1.any (fun s => s.name = k.1 && s.address = k.2))
        = (l2.any (fun s => s.name = k.1 && s.address = k.2)) := by
  intro l1 l2 h
  induction h with
  | nil => rfl
  | cons hr _ ih => simp only [List.any_cons, hr.2.1, hr.2.2.1, ih]

/-- Related tables hold the same keys. -/
theorem tblRel_hasKey (ks : List (PyVal × PyVal)) (t u : DBState)
    (h : tblRel ks t u) (k : PyVal × PyVal) : hasKey t k = hasKey u k :=
  forall₂_any_key ks k t.rows u.rows h.2

/-- Rows equal after erasing `updated_at` agree on id, key and creation
time. -/
theorem eraseUpd_eq_fields (a b : Station) (h : eraseUpd a = eraseUpd b) :
    a.id = b.id ∧ a.name = b.name ∧ a.address = b.address ∧ a.created_at = b.created_at := by
  cases a; cases b
  simp only [eraseUpd, Station.mk.injEq] at h
  obtain ⟨h1, h2, h3, h4, h5, h6, h7, h8, h9, h10, h11, -⟩ := h
  exact ⟨h1, h2, h5, h11⟩

/-- An updated replay row equals (up to `updated_at`) a final-run row that
carries the same parameters. -/
theorem eraseUpd_applyUpdate_eq (now : ℕ) (p : StationParams) (a b : Station)
    (hid : a.id = b.id) (hnm : a.name = b.name) (had : a.address = b.address)
    (hcr : a.created_at = b.created_at) (hfe : fieldsEq b p) :
    eraseUpd (applyUpdate now p a) = eraseUpd b := by
  obtain ⟨f1, f2, f3, f4, f5, f6, f7⟩ := hfe
  cases a; cases b
  simp only at hid hnm had hcr f1 f2 f3 f4 f5 f6 f7
  simp only [eraseUpd, applyUpdate, Station.mk.injEq]
  exact ⟨hid, hnm, f1.symm, f2.symm, had, f3.symm, f4.symm, f5.symm, f6.symm, f7.symm, hcr, trivial⟩

/-- Row lists in full agreement are byte-identical except `updated_at`. -/
theorem forall₂_nil_map_eraseUpd :
    ∀ (l1 l2 : List Station), List.Forall₂ (rowRel []) l1 l2 →
      l1.map eraseUpd = l2.map eraseUpd := by
  intro l1 l2 h
  induction h with
  | nil => rfl
  | cons hr _ ih =>
      rcases hr.2.2.2.2 with hmem | heq
      · exact absurd hmem (List.not_mem_nil _)
      · simp only [List.map_cons, heq, ih]

/-- Full agreement makes the two tables byte-identical except `updated_at`. -/
theorem tblRel_nil_byteEq (t u : DBState) (h : tblRel [] t u) :
    t.rows.map eraseUpd = u.rows.map eraseUpd ∧ t.nextId = u.nextId :=
  ⟨forall₂_nil_map_eraseUpd t.rows u.rows h.2, h.1⟩

/-- The table after the conflict (update) arm of an upsert. -/
def updRows (now : ℕ) (p : StationParams) (st : DBState) : DBState :=
  { st with rows := st.rows.map (fun s => if keyMatches p s then applyUpdate now p s else s) }

/-- The replay lemma: starting from any table that agrees with the finished
final table of the finished run (up to `updated_at`, and modulo the keys the remaining
records rewrite), replaying the remaining records succeeds, reports zero
additions, and lands in full agreement with the final table. -/
theorem replay_agree :
    ∀ (L : List (Bool × PyVal)) (now2 : ℕ) (t st1 : DBState),
      suffixOK st1 L → tblRel (validKeys L) t st1 →
      ∃ t2 evs, processSeq now2 t L = some (t2, evs) ∧
        tblRel [] t2 st1 ∧ evs.filter (fun e => e.added) = [] := by
  intro L
  induction L with
  | nil =>
      intro now2 t st1 _ hrel
      exact ⟨t, [], rfl, hrel, rfl⟩
  | cons e rest ih =>
      intro now2 t st1 hok hrel
      obtain ⟨eco, item⟩ := e
      obtain ⟨hnf, hokp, hrest⟩ := hok
      cases hn : normalizeRecord eco item with
      | fail => exact absurd hn hnf
      | skip =>
          have hrel2 : tblRel (validKeys rest) t st1 := by
            rwa [validKeys_cons_skip eco item rest hn] at hrel
          obtain ⟨t2, evs, hps, hfin, hev⟩ := ih now2 t st1 hrest hrel2
          refine ⟨t2, evs, ?_, hfin, hev⟩
          simp only [processSeq, processItem, hn, hps, List.nil_append]
      | ok p =>
          obtain ⟨hva, hvo, hkey1, hlast⟩ := hokp p hn
          have hkeyt : t.rows.any (keyMatches p) = true := by
            have h := tblRel_hasKey _ t st1 hrel (keyOf p)
            rw [hkey1] at h
            rw [← hasKey_keyOf]
            exact h
          have hupd : upsertStation now2 t p = some (updRows now2 p t) := by
            unfold upsertStation updRows
            rw [hva, hvo]
            simp only [Bool.and_self, Bool.true_eq_false, if_false]
            rw [if_pos hkeyt]
          have hrel1 : tblRel (validKeys rest) (updRows now2 p t) st1 := by
            obtain ⟨hnid, hfa⟩ := hrel
            rw [validKeys_cons_ok eco item rest p hn] at hfa
            refine ⟨hnid, ?_⟩
            rw [List.forall₂_iff_get] at hfa ⊢
            obtain ⟨hlen, hget⟩ := hfa
            constructor
            · simpa [updRows] using hlen
            · intro i h1 h2
              have h1t : i < t.rows.length := by simpa [updRows] using h1
              obtain ⟨hid, hnm, had, hcr, hdisj⟩ := hget i h1t h2
              have hmap : (updRows now2 p t).rows.get ⟨i, h1⟩
                  = (fun s => if keyMatches p s then applyUpdate now2 p s else s)
                      (t.rows.get ⟨i, h1t⟩) := by
                simp [updRows]
              rw [hmap]
              by_cases hm : keyMatches p (t.rows.get ⟨i, h1t⟩) = true
              · simp only [if_pos hm]
                refine ⟨hid, hnm, had, hcr, ?_⟩
                by_cases hbk : rowKey (st1.rows.get ⟨i, h2⟩) ∈ validKeys rest
                · exact Or.inl hbk
                · right
                  have hak : rowKey (t.rows.get ⟨i, h1t⟩) = keyOf p :=
                    (keyMatches_iff _ _).mp hm
                  have hbkey : rowKey (st1.rows.get ⟨i, h2⟩) = keyOf p := by
                    unfold rowKey at hak ⊢
                    rw [← hnm, ← had]
                    exact hak
                  have hnot : keyOf p ∉ validKeys rest :=
                    fun hin => hbk (by rw [hbkey]; exact hin)
                  have hfe : fieldsEq (st1.rows.get ⟨i, h2⟩) p :=
                    hlast hnot (st1.rows.get ⟨i, h2⟩) (List.get_mem _ _ _) hbkey
                  exact eraseUpd_applyUpdate_eq now2 p _ _ hid hnm had hcr hfe
              · simp only [if_neg hm]
                refine ⟨hid, hnm, had, hcr, ?_⟩
                rcases hdisj with hbk | heq
                · rcases List.mem_cons.mp hbk with hbk1 | hbk2
                  · exfalso
                    have hak : rowKey (t.rows.get ⟨i, h1t⟩) = keyOf p := by
                      unfold rowKey at hbk1 ⊢
                      rw [hnm, had]
                      exact hbk1
                    exact hm ((keyMatches_iff _ _).mpr hak)
                  · exact Or.inl hbk2
                · exact Or.inr heq
          obtain ⟨t2, evs, hps, hfin, hev⟩ := ih now2 _ st1 hrest hrel1
          refine ⟨t2, ⟨p.name, p.address, eco, !(t.rows.any (keyMatches p))⟩ :: evs,
            ?_, hfin, ?_⟩
          · simp only [processSeq, processItem, hn, hupd, hps]
            simp
          · simp only [List.filter_cons, hkeyt]
            simp [hev]

/-! ## C1: idempotence of the import -/

/-- The state after `n` replays of the same payload pair, the `i`-th replay
running at clock `nows i`. -/
def replayState (e ne : List PyVal) (nows : ℕ → ℕ) (st : DBState) : ℕ → DBState
  | 0 => st
  | n + 1 => (importRun (nows n) (replayState e ne nows st n) (some e) (some ne)).1

/-- C1.  After a first successful import of a payload pair, every replay of
the identical payloads succeeds, reports zero "added", and leaves the
persisted state byte-identical to the final state of the first run except the
update timestamps (id sequence included): replaying any number of times
converges to the same persisted Station state. -/
theorem import_idempotent (now1 : ℕ) (nows : ℕ → ℕ) (st0 st1 : DBState)
    (e ne : List PyVal) (evs1 : List ImportEvent)
    (h1 : importRun now1 st0 (some e) (some ne) = (st1, some evs1)) :
    ∀ n, ∃ evs,
      importRun (nows n) (replayState e ne nows st1 n) (some e) (some ne)
        = (replayState e ne nows st1 (n + 1), some evs) ∧
      addedCount evs = 0 ∧
      (replayState e ne nows st1 (n + 1)).rows.map eraseUpd = st1.rows.map eraseUpd ∧
      (replayState e ne nows st1 (n + 1)).nextId = st1.nextId := by
  have hrun : processSeq now1 st0 (runSeq (some e) (some ne)) = some (st1, evs1) := by
    unfold importRun at h1
    cases hps : processSeq now1 st0 (runSeq (some e) (some ne)) with
    | none => rw [hps] at h1; simp at h1
    | some r =>
        obtain ⟨stx, evsx⟩ := r
        rw [hps] at h1
        simp only [Prod.mk.injEq, Option.some_inj] at h1
        rw [h1.1, h1.2]
  have hok : suffixOK st1 (runSeq (some e) (some ne)) :=
    run_suffixOK _ now1 st0 st1 evs1 hrun
  have main : ∀ n, tblRel [] (replayState e ne nows st1 n) st1 := by
    intro n
    induction n with
    | zero => exact tblRel_refl [] st1
    | succ m ihm =>
        obtain ⟨t2, evs, hps, hfin, -⟩ :=
          replay_agree (runSeq (some e) (some ne)) (nows m)
            (replayState e ne nows st1 m) st1 hok (tblRel_weaken _ _ _ ihm)
        have hstep : replayState e ne nows st1 (m + 1) = t2 := by
          show (importRun (nows m) (replayState e ne nows st1 m) (some e) (some ne)).1 = t2
          unfold importRun
          rw [hps]
        rw [hstep]
        exact hfin
  intro n
  obtain ⟨t2, evs, hps, hfin, hev⟩ :=
    replay_agree (runSeq (some e) (some ne)) (nows n)
      (replayState e ne nows st1 n) st1 hok (tblRel_weaken _ _ _ (main n))
  have hstep : replayState e ne nows st1 (n + 1) = t2 := by
    show (importRun (nows n) (replayState e ne nows st1 n) (some e) (some ne)).1 = t2
    unfold importRun
    rw [hps]
  refine ⟨evs, ?_, ?_, ?_, ?_⟩
  · rw [hstep]
    unfold importRun
    rw [hps]
  · unfold addedCount
    rw [hev]
    rfl
  · rw [hstep]
    exact (tblRel_nil_byteEq t2 st1 hfin).1
  · rw [hstep]
    exact (tblRel_nil_byteEq t2 st1 hfin).2

/-- A concrete eco-feed record for the C1 witness. -/
def c1EcoRec : PyVal :=
  .vdict [("Cells", .vdict [("FullName", .vstr "E"), ("Address", .vstr "e1")])]

/-- A concrete non-eco-feed record for the C1 witness. -/
def c1NonEcoRec : PyVal :=
  .vdict [("Cells", .vdict [("FullName", .vstr "F"), ("Address", .vstr "f1")])]

/-- The state the first C1-witness run commits. -/
def c1State : DBState :=
  ⟨[{ id := 1, name := .vstr "E", admarea := .vnone, district := .vnone,
      address := .vstr "e1", owner := .vnone, test_date := none, eco_status := true,
      latitude := .vnone, longitude := .vnone, created_at := 1, updated_at := 1 },
    { id := 2, name := .vstr "F", admarea := .vnone, district := .vnone,
      address := .vstr "f1", owner := .vnone, test_date := none, eco_status := false,
      latitude := .vnone, longitude := .vnone, created_at := 1, updated_at := 1 }], 3⟩

/-- The ledger of the first C1-witness run. -/
def c1Evs : List ImportEvent :=
  [⟨.vstr "E", .vstr "e1", true, true⟩, ⟨.vstr "F", .vstr "f1", false, true⟩]

/-- C1 (witness): a concrete successful first import, replayed once. -/
theorem import_idempotent_witness :
    ∃ evs,
      importRun 2 (replayState [c1EcoRec] [c1NonEcoRec] (fun _ => 2) c1State 0)
          (some [c1EcoRec]) (some [c1NonEcoRec])
        = (replayState [c1EcoRec] [c1NonEcoRec] (fun _ => 2) c1State 1, some evs) ∧
      addedCount evs = 0 ∧
      (replayState [c1EcoRec] [c1NonEcoRec] (fun _ => 2) c1State 1).rows.map eraseUpd
        = c1State.rows.map eraseUpd ∧
      (replayState [c1EcoRec] [c1NonEcoRec] (fun _ => 2) c1State 1).nextId = c1State.nextId :=
  import_idempotent 1 (fun _ => 2) ⟨[], 1⟩ c1State [c1EcoRec] [c1NonEcoRec] c1Evs (by decide) 0

/-! ## C10: cross-feed overwrite order -/

/-- A record that normalizes carries the eco flag of its feed. -/
theorem normalizeCells_eco (eco : Bool) (cs : List (String × PyVal)) (p : StationParams)
    (h : normalizeRecord.normalizeCells eco cs = .ok p) : p.eco_status = eco := by
  unfold normalizeRecord.normalizeCells at h
  by_cases hskip :
      (dictGet cs "FullName").truthy = false ∨ (dictGet cs "Address").truthy = false
  · rw [if_pos hskip] at h; exact absurd h (by simp)
  · rw [if_neg hskip] at h
    injection h with h2
    rw [← h2]

/-- The eco flag of normalized parameters is the feed flag, not record
content. -/
theorem normalizeRecord_eco (eco : Bool) (item : PyVal) (p : StationParams)
    (h : normalizeRecord eco item = .ok p) : p.eco_status = eco := by
  cases item with
  | vnone => simp [normalizeRecord] at h
  | vnum q => simp [normalizeRecord] at h
  | vstr s => simp [normalizeRecord] at h
  | vlist xs => simp [normalizeRecord] at h
  | vdict es =>
      cases hc : List.lookup "Cells" es with
      | none =>
          simp only [normalizeRecord, hc] at h
          exact normalizeCells_eco eco [] p h
      | some w =>
          cases w with
          | vdict cs =>
              simp only [normalizeRecord, hc] at h
              exact normalizeCells_eco eco cs p h
          | vnone => simp only [normalizeRecord, hc] at h; exact absurd h (by simp)
          | vnum q => simp only [normalizeRecord, hc] at h; exact absurd h (by simp)
          | vstr s => simp only [normalizeRecord, hc] at h; exact absurd h (by simp)
          | vlist xs => simp only [normalizeRecord, hc] at h; exact absurd h (by simp)

/-- Splitting a successful run at a list concatenation. -/
theorem processSeq_append_some (now : ℕ) (l1 l2 : List (Bool × PyVal)) (st st3 : DBState)
    (evs : List ImportEvent)
    (h : processSeq now st (l1 ++ l2) = some (st3, evs)) :
    ∃ st2 evs1 evs2, processSeq now st l1 = some (st2, evs1) ∧
      processSeq now st2 l2 = some (st3, evs2) ∧ evs = evs1 ++ evs2 := by
  rw [processSeq_append] at h
  cases h1 : processSeq now st l1 with
  | none => simp only [h1] at h; exact absurd h (by simp)
  | some r =>
      obtain ⟨st2, evs1⟩ := r
      simp only [h1] at h
      cases h2 : processSeq now st2 l2 with
      | none => simp only [h2] at h; exact absurd h (by simp)
      | some r2 =>
          obtain ⟨st4, evs2⟩ := r2
          simp only [h2, Option.some_inj, Prod.mk.injEq] at h
          exact ⟨st2, evs1, evs2, rfl, by rw [← h.1]; exact h2, h.2.symm⟩

/-- One processed record known to normalize: the upsert runs and the single
ledger entry records whether the key was new. -/
theorem processItem_ok_step (now : ℕ) (eco : Bool) (st : DBState) (item : PyVal)
    (p : StationParams) (st2 : DBState) (evs0 : List ImportEvent)
    (hn : normalizeRecord eco item = .ok p)
    (h : processItem now eco st item = some (st2, evs0)) :
    upsertStation now st p = some st2 ∧
    evs0 = [⟨p.name, p.address, eco, !(st.rows.any (keyMatches p))⟩] := by
  rcases processItem_some now eco st item st2 evs0 h with ⟨hskip, -, -⟩ | ⟨p2, hn2, hu, hev0⟩
  · rw [hn] at hskip; exact absurd hskip (by simp)
  · rw [hn] at hn2
    injection hn2 with hp2
    subst hp2
    exact ⟨hu, hev0⟩

/-- `keyEvents` distributes over ledger concatenation. -/
theorem keyEvents_append (k : PyVal × PyVal) (l1 l2 : List ImportEvent) :
    keyEvents k (l1 ++ l2) = keyEvents k l1 ++ keyEvents k l2 :=
  List.filter_append _ _

/-- A segment that never writes a key contributes no ledger entry for it. -/
theorem keyEvents_nil_of_not_mem (k : PyVal × PyVal) (seg : List (Bool × PyVal))
    (now : ℕ) (st st2 : DBState) (evs : List ImportEvent)
    (h : processSeq now st seg = some (st2, evs)) (hk : k ∉ validKeys seg) :
    keyEvents k evs = [] := by
  unfold keyEvents
  rw [List.filter_eq_nil_iff]
  intro ev hev
  have hmem := processSeq_events_keys seg now st st2 evs h ev hev
  intro hpred
  simp only [Bool.and_eq_true, decide_eq_true_eq] at hpred
  apply hk
  have : (ev.name, ev.address) = k := Prod.ext hpred.1 hpred.2
  rw [← this]
  exact hmem

/-- The record used, in both feeds, by the C10 counterexample (key
`("K", "k1")`). -/
def c10Rec : PyVal :=
  .vdict [("Cells", .vdict [("FullName", .vstr "K"), ("Address", .vstr "k1")])]

/-- A pre-existing row with the C10 key. -/
def c10PreRow : Station :=
  { id := 7, name := .vstr "K", admarea := .vnone, district := .vnone,
    address := .vstr "k1", owner := .vnone, test_date := none, eco_status := true,
    latitude := .vnone, longitude := .vnone, created_at := 0, updated_at := 0 }

/-- C10 (counterexample).  The claim says a key appearing in both feeds
contributes exactly 1 to "added" and 1 to "updated" in every such run.  Two
runs where both feeds load successfully and the key appears in both refute
it: with the key already persisted before the run it contributes 0 to
"added" and 2 to "updated"; with the key duplicated inside the eco feed it
contributes 1 to "added" and 2 to "updated". -/
theorem cross_feed_contrib_counterexample :
    addedCount (keyEvents (.vstr "K", .vstr "k1")
      ((importRun 5 ⟨[c10PreRow], 8⟩ (some [c10Rec]) (some [c10Rec])).2.getD [])) = 0 ∧
    updatedCount (keyEvents (.vstr "K", .vstr "k1")
      ((importRun 5 ⟨[c10PreRow], 8⟩ (some [c10Rec]) (some [c10Rec])).2.getD [])) = 2 ∧
    addedCount (keyEvents (.vstr "K", .vstr "k1")
      ((importRun 5 ⟨[], 1⟩ (some [c10Rec, c10Rec]) (some [c10Rec])).2.getD [])) = 1 ∧
    updatedCount (keyEvents (.vstr "K", .vstr "k1")
      ((importRun 5 ⟨[], 1⟩ (some [c10Rec, c10Rec]) (some [c10Rec])).2.getD [])) = 2 := by
  decide

/-- C10 (amended).  In a successful run in which both feeds load, a key
absent from the catalog beforehand and appearing exactly once among the
valid records of each feed is processed eco-first: its ledger is exactly one
"added" entry from the eco feed followed by one "updated" entry from the
non-eco feed (1 added, 1 updated), and since the non-eco write is the last
for that key, the persisted `eco_status` is `false`. -/
theorem cross_feed_overwrite_amended
    (now : ℕ) (st0 st1 : DBState) (evs : List ImportEvent)
    (A B C D : List PyVal) (x y : PyVal) (p q : StationParams)
    (hx : normalizeRecord true x = .ok p)
    (hy : normalizeRecord false y = .ok q)
    (hkq : keyOf q = keyOf p)
    (hA : keyOf p ∉ validKeys (A.map (fun i => (true, i))))
    (hB : keyOf p ∉ validKeys (B.map (fun i => (true, i))))
    (hC : keyOf p ∉ validKeys (C.map (fun i => (false, i))))
    (hD : keyOf p ∉ validKeys (D.map (fun i => (false, i))))
    (h0 : hasKey st0 (keyOf p) = false)
    (hrun : importRun now st0 (some (A ++ x :: B)) (some (C ++ y :: D)) = (st1, some evs)) :
    keyEvents (keyOf p) evs
      = [⟨p.name, p.address, true, true⟩, ⟨q.name, q.address, false, false⟩] ∧
    addedCount (keyEvents (keyOf p) evs) = 1 ∧
    updatedCount (keyEvents (keyOf p) evs) = 1 ∧
    (∀ s ∈ st1.rows, rowKey s = keyOf p → s.eco_status = false) := by
  -- unpack the run into its raw record sequence
  have hps : processSeq now st0 (runSeq (some (A ++ x :: B)) (some (C ++ y :: D)))
      = some (st1, evs) := by
    unfold importRun at hrun
    cases hq : processSeq now st0 (runSeq (some (A ++ x :: B)) (some (C ++ y :: D))) with
    | none => rw [hq] at hrun; simp at hrun
    | some r =>
        obtain ⟨stx, evsx⟩ := r
        rw [hq] at hrun
        simp only [Prod.mk.injEq, Option.some_inj] at hrun
        rw [hrun.1, hrun.2]
  have hshape : runSeq (some (A ++ x :: B)) (some (C ++ y :: D))
      = (A.map (fun i => (true, i)) ++ (true, x) :: B.map (fun i => (true, i)))
        ++ (C.map (fun i => (false, i)) ++ (false, y) :: D.map (fun i => (false, i))) := by
    simp only [runSeq, List.map_append, List.map_cons]
  rw [hshape] at hps
  -- split: eco part, then non-eco part
  obtain ⟨stE, evsE, evsN, hpsE, hpsN, hevs⟩ :=
    processSeq_append_some now _ _ st0 st1 evs hps
  -- split the eco part around x
  obtain ⟨stA, evsA, evsXB, hpsA, hpsXB, hevsE⟩ :=
    processSeq_append_some now _ _ st0 stE evsE hpsE
  obtain ⟨stX, evsX, evsB, hpiX, hpsB, hevsXB⟩ :=
    processSeq_cons_some now stA true x _ stE evsXB hpsXB
  -- split the non-eco part around y
  obtain ⟨stC, evsC, evsYD, hpsC, hpsYD, hevsN⟩ :=
    processSeq_append_some now _ _ stE st1 evsN hpsN
  obtain ⟨stY, evsY, evsD, hpiY, hpsD, hevsYD⟩ :=
    processSeq_cons_some now stC false y _ st1 evsYD hpsYD
  -- the key is still absent when x is processed
  have hkeyA : hasKey stA (keyOf p) = false := by
    rw [← Bool.not_eq_true]
    intro hkeyA
    rcases processSeq_key_intro _ now st0 stA evsA hpsA (keyOf p) hkeyA with hold | hmem
    · rw [h0] at hold; exact Bool.noConfusion hold
    · exact hA hmem
  -- x inserts: an "added" event for the eco feed
  obtain ⟨huX, hevX⟩ := processItem_ok_step now true stA x p stX evsX hx hpiX
  rw [← hasKey_keyOf, hkeyA] at hevX
  -- the key is present for the whole remainder of the run
  have hkeyX : hasKey stX (keyOf p) = true := upsert_hasKey_self now stA stX p huX
  have hkeyE : hasKey stE (keyOf p) = true :=
    processSeq_hasKey_mono _ now stX stE evsB hpsB _ hkeyX
  have hkeyC : hasKey stC (keyOf p) = true :=
    processSeq_hasKey_mono _ now stE stC evsC hpsC _ hkeyE
  -- y updates: an "updated" event for the non-eco feed
  obtain ⟨huY, hevY⟩ := processItem_ok_step now false stC y q stY evsY hy hpiY
  have hkeyCq : stC.rows.any (keyMatches q) = true := by
    rw [← hasKey_keyOf, hkq]
    exact hkeyC
  rw [hkeyCq] at hevY
  -- the other segments never touch the key
  have hkA : keyEvents (keyOf p) evsA = [] :=
    keyEvents_nil_of_not_mem _ _ now st0 stA evsA hpsA hA
  have hkB : keyEvents (keyOf p) evsB = [] :=
    keyEvents_nil_of_not_mem _ _ now stX stE evsB hpsB hB
  have hkC : keyEvents (keyOf p) evsC = [] :=
    keyEvents_nil_of_not_mem _ _ now stE stC evsC hpsC hC
  have hkD : keyEvents (keyOf p) evsD = [] :=
    keyEvents_nil_of_not_mem _ _ now stY st1 evsD hpsD hD
  -- the two singleton ledgers
  have hkX : keyEvents (keyOf p) evsX = [⟨p.name, p.address, true, true⟩] := by
    rw [hevX]
    simp [keyEvents, keyOf]
  have h1q : q.name = p.name := congrArg Prod.fst hkq
  have h2q : q.address = p.address := congrArg Prod.snd hkq
  have hkY : keyEvents (keyOf p) evsY = [⟨q.name, q.address, false, false⟩] := by
    rw [hevY]
    simp [keyEvents, keyOf, h1q, h2q]
  have hkEvs : keyEvents (keyOf p) evs
      = [⟨p.name, p.address, true, true⟩, ⟨q.name, q.address, false, false⟩] := by
    rw [hevs, hevsE, hevsXB, hevsN, hevsYD]
    simp only [keyEvents_append, hkA, hkB, hkC, hkD, hkX, hkY]
    simp
  refine ⟨hkEvs, ?_, ?_, ?_⟩
  · rw [hkEvs]; rfl
  · rw [hkEvs]; rfl
  · intro s hs hsk
    have hmem : s ∈ rowsAt st1 (keyOf p) := (mem_rowsAt _ _ _).mpr ⟨hs, hsk⟩
    rw [processSeq_rowsAt_frame _ now stY st1 evsD hpsD (keyOf p) hD] at hmem
    obtain ⟨hs2, hsk2⟩ := (mem_rowsAt _ _ _).mp hmem
    have hfe : fieldsEq s q :=
      upsert_rowsAt_post now stC stY q huY s hs2 (by rw [hsk2, ← hkq])
    rw [hfe.2.2.2.2.1, normalizeRecord_eco false y q hy]

/-- The parameters `c10Rec` normalizes to in the eco feed. -/
def c10EcoParams : StationParams :=
  { name := .vstr "K", admarea := .vnone, district := .vnone, address := .vstr "k1",
    owner := .vnone, test_date := none, eco_status := true,
    latitude := .vnone, longitude := .vnone }

/-- The parameters `c10Rec` normalizes to in the non-eco feed. -/
def c10NonEcoParams : StationParams :=
  { c10EcoParams with eco_status := false }

/-- The final state of the C10 witness run: the write of the non-eco feed wins. -/
def c10FinalState : DBState :=
  ⟨[{ id := 1, name := .vstr "K", admarea := .vnone, district := .vnone,
      address := .vstr "k1", owner := .vnone, test_date := none, eco_status := false,
      latitude := .vnone, longitude := .vnone, created_at := 5, updated_at := 5 }], 2⟩

/-- The ledger of the C10 witness run. -/
def c10RunEvs : List ImportEvent :=
  [⟨.vstr "K", .vstr "k1", true, true⟩, ⟨.vstr "K", .vstr "k1", false, false⟩]

/-- C10 (witness for the amended statement). -/
theorem cross_feed_overwrite_amended_witness :
    keyEvents (keyOf c10EcoParams) c10RunEvs
      = [⟨c10EcoParams.name, c10EcoParams.address, true, true⟩,
         ⟨c10NonEcoParams.name, c10NonEcoParams.address, false, false⟩] ∧
    addedCount (keyEvents (keyOf c10EcoParams) c10RunEvs) = 1 ∧
    updatedCount (keyEvents (keyOf c10EcoParams) c10RunEvs) = 1 ∧
    (∀ s ∈ c10FinalState.rows, rowKey s = keyOf c10EcoParams → s.eco_status = false) :=
  cross_feed_overwrite_amended 5 ⟨[], 1⟩ c10FinalState c10RunEvs
    [] [] [] [] c10Rec c10Rec c10EcoParams c10NonEcoParams
    (by decide) (by decide) (by decide) (by decide) (by decide) (by decide) (by decide)
    (by decide) (by decide)

end Eco
